import Mathlib

/-!
Verification of the `vuzic/audio` streaming audio-analysis library.

The Rust source is shallowly embedded over `ℝ` (the idealized model of the
`f32`/`f64` arithmetic in the source) and over `List ℝ` (the model of `Vec`).
Loops of the form `for i in 0..n { v[i] = f(i, v[i], …) }`, in which each
iteration reads and writes only position `i` of the mutated vector, are
embedded by the indexed-rewrite helper `loopSet`; the one loop with a genuine
sequential dependency (`FrequencySensor::apply_sync`) is embedded as a fold.
Out-of-range reads are embedded with `List.getD _ 0`; in the Rust source such
reads panic instead, but every theorem below constrains the states so that all
reads are in bounds (matching the sizes the Rust constructors produce).
-/

namespace Audio

/-- `loopSetGo g n i l` rewrites element `i + k` of `l` to `g (i+k) x` for all
positions with `i + k < n`, leaving later elements unchanged.  It is the
embedding of the Rust pattern `for j in 0..n { v[j] = g(j, v[j]) }` (starting
from offset `i`). -/
def loopSetGo (g : ℕ → ℝ → ℝ) (n : ℕ) : ℕ → List ℝ → List ℝ
  | _, [] => []
  | i, x :: xs => (if i < n then g i x else x) :: loopSetGo g n (i + 1) xs

/-- Embedding of `for i in 0..n { v[i] = g(i, v[i]) }`. -/
def loopSet (g : ℕ → ℝ → ℝ) (n : ℕ) (l : List ℝ) : List ℝ :=
  loopSetGo g n 0 l

@[simp] theorem loopSetGo_nil (g : ℕ → ℝ → ℝ) (n i : ℕ) :
    loopSetGo g n i [] = [] := rfl

@[simp] theorem loopSetGo_cons (g : ℕ → ℝ → ℝ) (n i : ℕ) (x : ℝ) (xs : List ℝ) :
    loopSetGo g n i (x :: xs) =
      (if i < n then g i x else x) :: loopSetGo g n (i + 1) xs := rfl

@[simp] theorem length_loopSetGo (g : ℕ → ℝ → ℝ) (n : ℕ) :
    ∀ (i : ℕ) (l : List ℝ), (loopSetGo g n i l).length = l.length := by
  intro i l
  induction l generalizing i with
  | nil => rfl
  | cons x xs ih => simp [loopSetGo, ih]

@[simp] theorem length_loopSet (g : ℕ → ℝ → ℝ) (n : ℕ) (l : List ℝ) :
    (loopSet g n l).length = l.length := by
  simp [loopSet]

theorem loopSetGo_getD (g : ℕ → ℝ → ℝ) (n : ℕ) :
    ∀ (l : List ℝ) (i k : ℕ),
      (loopSetGo g n i l).getD k 0 =
        if i + k < n ∧ k < l.length then g (i + k) (l.getD k 0) else l.getD k 0 := by
  intro l
  induction l with
  | nil => intro i k; simp [loopSetGo]
  | cons x xs ih =>
    intro i k
    cases k with
    | zero => simp [loopSetGo]
    | succ k =>
      simp only [loopSetGo_cons, List.getD_cons_succ, List.length_cons]
      rw [ih (i + 1) k]
      by_cases h1 : i + 1 + k < n
      · by_cases h2 : k < xs.length
        · rw [if_pos ⟨h1, h2⟩, if_pos (by omega)]
          congr 1
          omega
        · rw [if_neg (by omega), if_neg (by omega)]
      · rw [if_neg (by omega), if_neg (by omega)]

theorem loopSet_getD (g : ℕ → ℝ → ℝ) (n : ℕ) (l : List ℝ) (k : ℕ) :
    (loopSet g n l).getD k 0 =
      if k < n ∧ k < l.length then g k (l.getD k 0) else l.getD k 0 := by
  simpa using loopSetGo_getD g n l 0 k

theorem getD_set_self {α : Type} (l : List α) (i : ℕ) (a d : α)
    (h : i < l.length) : (l.set i a).getD i d = a := by
  induction l generalizing i with
  | nil => simp at h
  | cons x xs ih =>
    cases i with
    | zero => simp
    | succ i => simpa using ih i (by simpa using h)

theorem getD_set_ne {α : Type} (l : List α) (i j : ℕ) (a d : α) (h : i ≠ j) :
    (l.set i a).getD j d = l.getD j d := by
  induction l generalizing i j with
  | nil => simp
  | cons x xs ih =>
    cases i with
    | zero => cases j with
      | zero => exact absurd rfl h
      | succ j => simp
    | succ i => cases j with
      | zero => simp
      | succ j => simpa using ih i j (by omega)

/-- The last `n` elements of a list, in order. -/
def suffixN (n : ℕ) (l : List ℝ) : List ℝ := l.drop (l.length - n)

/-- The elements `[a, b)` of `l` (the Rust slice `l[a..b]`). -/
def listExtract (l : List ℝ) (a b : ℕ) : List ℝ := (l.take b).drop a

theorem suffixN_append_right (n : ℕ) (A B : List ℝ) (h : n ≤ B.length) :
    suffixN n (A ++ B) = suffixN n B := by
  unfold suffixN
  rw [List.length_append, List.drop_append_eq_append_drop]
  have h1 : A.length + B.length - n ≥ A.length := by omega
  rw [List.drop_eq_nil_of_le (by omega), List.nil_append]
  congr 1
  omega

theorem suffixN_step (c : ℕ) (A x : List ℝ) (hA : c ≤ A.length)
    (hx : x.length ≤ c) :
    suffixN c (A ++ x) = (suffixN c A).drop x.length ++ x := by
  unfold suffixN
  rw [List.length_append, List.drop_append_eq_append_drop]
  rw [List.drop_drop]
  have h1 : A.length + x.length - c - A.length = 0 := by omega
  rw [h1, List.drop_zero]
  congr 2
  omega

theorem suffixN_drop (c n : ℕ) (l : List ℝ) (hc : c ≤ l.length) (hn : n ≤ c) :
    (suffixN c l).drop (c - n) = suffixN n l := by
  unfold suffixN
  rw [List.drop_drop]
  congr 1
  omega

/-! ## WindowBuffer (`src/buffer.rs`)

```rust
pub struct WindowBuffer { buffer: Vec<f64>, index: usize, capacity: usize }
```
-/

structure WindowBuffer where
  buffer : List ℝ
  index : ℕ
  capacity : ℕ

namespace WindowBuffer

/-- `WindowBuffer::new(capacity)`: zero-filled buffer, cursor at 0. -/
def new (capacity : ℕ) : WindowBuffer :=
  { buffer := List.replicate capacity 0, index := 0, capacity := capacity }

/-- Embedding of `for i in start..start+xs.len() { buf[i] = xs[i - start] }`. -/
def copyInto (buf : List ℝ) (start : ℕ) (xs : List ℝ) : List ℝ :=
  match xs with
  | [] => buf
  | y :: ys => copyInto (buf.set start y) (start + 1) ys

@[simp] theorem copyInto_nil (buf : List ℝ) (start : ℕ) :
    copyInto buf start [] = buf := rfl

@[simp] theorem copyInto_cons (buf : List ℝ) (start : ℕ) (y : ℝ) (ys : List ℝ) :
    copyInto buf start (y :: ys) = copyInto (buf.set start y) (start + 1) ys := rfl

@[simp] theorem length_copyInto (xs : List ℝ) :
    ∀ (buf : List ℝ) (start : ℕ), (copyInto buf start xs).length = buf.length := by
  induction xs with
  | nil => intro buf start; rfl
  | cons y ys ih => intro buf start; simp [copyInto, ih]

/-- In-bounds `copyInto` overwrites the slice `[start, start+xs.len)`. -/
theorem copyInto_eq (xs : List ℝ) :
    ∀ (buf : List ℝ) (start : ℕ), start + xs.length ≤ buf.length →
      copyInto buf start xs = buf.take start ++ xs ++ buf.drop (start + xs.length) := by
  induction xs with
  | nil => intro buf start _; simp
  | cons y ys ih =>
    intro buf start h
    have hyl : (y :: ys).length = ys.length + 1 := rfl
    have hlt : start < buf.length := by rw [hyl] at h; omega
    have h' : start + 1 + ys.length ≤ (buf.set start y).length := by
      rw [List.length_set]; rw [hyl] at h; omega
    rw [copyInto_cons, ih _ _ h']
    have hset : buf.set start y = buf.take start ++ y :: buf.drop (start + 1) := by
      rw [List.set_eq_take_append_cons_drop, if_pos hlt]
    rw [hset]
    have hl : (buf.take start).length = start := by
      rw [List.length_take]; omega
    have h1 : (buf.take start ++ y :: buf.drop (start + 1)).take (start + 1)
        = buf.take start ++ [y] := by
      rw [List.take_append_eq_append_take, hl, List.take_of_length_le (by omega)]
      have : start + 1 - start = 1 := by omega
      rw [this]
      rfl
    have h2 : (buf.take start ++ y :: buf.drop (start + 1)).drop (start + 1 + ys.length)
        = buf.drop (start + 1 + ys.length) := by
      rw [List.drop_append_eq_append_drop, hl, List.drop_eq_nil_of_le (by omega),
        List.nil_append]
      have : start + 1 + ys.length - start = ys.length + 1 := by omega
      rw [this, List.drop_succ_cons, List.drop_drop]
    rw [h1, h2, hyl]
    rw [show start + (ys.length + 1) = start + 1 + ys.length from by omega]
    simp [List.append_assoc]

/-- `WindowBuffer::push` (buffer.rs:18-41), in-bounds executions. -/
def push (w : WindowBuffer) (x : List ℝ) : WindowBuffer :=
  let e := w.index + x.length
  if e > w.capacity then
    let os := w.capacity - w.index
    let buf1 := copyInto w.buffer w.index (x.take os)
    let buf2 := copyInto buf1 0 (x.drop os)
    { buffer := buf2, index := (w.index + x.length) % w.capacity, capacity := w.capacity }
  else
    { buffer := copyInto w.buffer w.index x,
      index := (w.index + x.length) % w.capacity, capacity := w.capacity }

/-- `WindowBuffer::get` (buffer.rs:43-68), in-bounds executions.  The source
preallocates `out = vec![0; size]` and fills it; for `size ≤ capacity` and a
buffer in its constructor-produced shape both loops together fill all of
`out`, so `get` is the concatenation of the two copied slices. -/
def get (w : WindowBuffer) (size : ℕ) : List ℝ :=
  if (w.index : ℤ) - (size : ℤ) < 0 then
    listExtract w.buffer ((w.capacity : ℤ) + ((w.index : ℤ) - (size : ℤ))).toNat
        w.capacity ++
      listExtract w.buffer 0 w.index
  else
    listExtract w.buffer ((w.index : ℤ) - (size : ℤ)).toNat w.index

/-- The buffer contents read in chronological order starting at the cursor. -/
def rot (w : WindowBuffer) : List ℝ :=
  w.buffer.drop w.index ++ w.buffer.take w.index

/-- A push shifts the chronological view: the oldest `x.len` samples fall out
and `x` is appended. -/
theorem push_rot (w : WindowBuffer) (x : List ℝ)
    (hlen : w.buffer.length = w.capacity) (hidx : w.index < w.capacity)
    (hx : x.length ≤ w.capacity) :
    rot (w.push x) = (rot w).drop x.length ++ x := by
  rcases w with ⟨buffer, idx, c⟩
  simp only at hlen hidx hx
  by_cases hw : idx + x.length > c
  · -- wrap case
    have hos : (x.take (c - idx)).length = c - idx := by
      rw [List.length_take]; omega
    have hmod : (idx + x.length) % c = x.length - (c - idx) := by
      rw [Nat.mod_eq_sub_mod (by omega), Nat.mod_eq_of_lt (by omega)]
      omega
    have hb1 : copyInto buffer idx (x.take (c - idx))
        = buffer.take idx ++ x.take (c - idx) := by
      rw [copyInto_eq _ _ _ (by rw [hos, hlen]; omega)]
      rw [hos, List.drop_eq_nil_of_le (by omega), List.append_nil]
    have hTlen : (buffer.take idx ++ x.take (c - idx)).length = c := by
      rw [List.length_append, hos, List.length_take]; omega
    have hb2 : copyInto (buffer.take idx ++ x.take (c - idx)) 0 (x.drop (c - idx))
        = x.drop (c - idx) ++
            (buffer.take idx ++ x.take (c - idx)).drop (x.length - (c - idx)) := by
      rw [copyInto_eq _ _ _ (by rw [List.length_drop, hTlen]; omega)]
      simp
    have hld : (x.drop (c - idx)).length = x.length - (c - idx) :=
      List.length_drop _ _
    set r := x.length - (c - idx) with hr
    set T := buffer.take idx ++ x.take (c - idx) with hT
    have htake : (x.drop (c - idx) ++ T.drop r).take r = x.drop (c - idx) := by
      rw [List.take_append_eq_append_take, hld, Nat.sub_self, List.take_zero,
        List.append_nil, List.take_of_length_le (by rw [hld])]
    have hdrop : (x.drop (c - idx) ++ T.drop r).drop r = T.drop r := by
      rw [List.drop_append_eq_append_drop, hld, Nat.sub_self, List.drop_zero,
        List.drop_eq_nil_of_le (by rw [hld]), List.nil_append]
    have hTdrop : T.drop r = (buffer.take idx).drop r ++ x.take (c - idx) := by
      rw [hT, List.drop_append_eq_append_drop, List.length_take]
      rw [show r - min idx buffer.length = 0 from by omega, List.drop_zero]
    have hrhs : (buffer.drop idx ++ buffer.take idx).drop x.length
        = (buffer.take idx).drop r := by
      rw [List.drop_append_eq_append_drop, List.length_drop, hlen,
        List.drop_eq_nil_of_le (by rw [List.length_drop, hlen]; omega),
        List.nil_append]
    show rot (push ⟨buffer, idx, c⟩ x) = _
    unfold push rot
    rw [if_pos (by simpa using hw)]
    simp only [← hT, hb1, hb2, hmod, ← hr]
    rw [htake, hdrop, hTdrop, hrhs, List.append_assoc, List.take_append_drop]
  · -- no-wrap case
    have hcopy : copyInto buffer idx x
        = buffer.take idx ++ x ++ buffer.drop (idx + x.length) := by
      rw [copyInto_eq _ _ _ (by omega)]
    have hrhs : (buffer.drop idx ++ buffer.take idx).drop x.length
        = buffer.drop (idx + x.length) ++ buffer.take idx := by
      rw [List.drop_append_eq_append_drop, List.length_drop, hlen,
        show x.length - (c - idx) = 0 from by omega, List.drop_zero,
        List.drop_drop]
    show rot (push ⟨buffer, idx, c⟩ x) = _
    unfold push rot
    rw [if_neg (by simpa using hw)]
    simp only [hcopy]
    by_cases hfull : idx + x.length = c
    · have hmod : (idx + x.length) % c = 0 := by rw [hfull, Nat.mod_self]
      rw [hmod, List.drop_zero, List.take_zero, List.append_nil, hrhs]
      rw [List.drop_eq_nil_of_le (by omega)]
      simp
    · have hmod : (idx + x.length) % c = idx + x.length :=
        Nat.mod_eq_of_lt (by omega)
      have htk : (buffer.take idx ++ x ++ buffer.drop (idx + x.length)).take
          (idx + x.length) = buffer.take idx ++ x := by
        rw [List.append_assoc, List.take_append_eq_append_take, List.length_take]
        rw [show min idx buffer.length = idx from by omega,
          List.take_of_length_le (by rw [List.length_take]; omega)]
        rw [show idx + x.length - idx = x.length from by omega]
        rw [List.take_append_eq_append_take, List.take_length, Nat.sub_self,
          List.take_zero, List.append_nil]
      have hdp : (buffer.take idx ++ x ++ buffer.drop (idx + x.length)).drop
          (idx + x.length) = buffer.drop (idx + x.length) := by
        rw [List.append_assoc, List.drop_append_eq_append_drop, List.length_take]
        rw [show min idx buffer.length = idx from by omega,
          List.drop_eq_nil_of_le (by rw [List.length_take]; omega), List.nil_append]
        rw [show idx + x.length - idx = x.length from by omega]
        rw [List.drop_append_eq_append_drop, List.drop_eq_nil_of_le (le_refl _),
          List.nil_append, Nat.sub_self, List.drop_zero]
      rw [hmod, htk, hdp, hrhs, List.append_assoc]

/-- `get n` reads the last `n` samples of the chronological view. -/
theorem get_eq_rot_drop (w : WindowBuffer) (n : ℕ)
    (hlen : w.buffer.length = w.capacity) (hidx : w.index < w.capacity)
    (hn : n ≤ w.capacity) :
    w.get n = (rot w).drop (w.capacity - n) := by
  rcases w with ⟨buffer, idx, c⟩
  simp only at hlen hidx hn ⊢
  unfold get rot listExtract
  by_cases hs : (idx : ℤ) - (n : ℤ) < 0
  · rw [if_pos hs]
    have hst : ((c : ℤ) + ((idx : ℤ) - (n : ℤ))).toNat = c + idx - n := by omega
    have hrhs : (buffer.drop idx ++ buffer.take idx).drop (c - n)
        = buffer.drop (c + idx - n) ++ buffer.take idx := by
      rw [List.drop_append_eq_append_drop, List.length_drop, hlen,
        show c - n - (c - idx) = 0 from by omega, List.drop_zero, List.drop_drop]
      congr 2
      omega
    have hbc : buffer.take c = buffer := by rw [← hlen, List.take_length]
    rw [hst, hrhs, hbc, List.drop_zero]
  · rw [if_neg hs]
    have hst : ((idx : ℤ) - (n : ℤ)).toNat = idx - n := by omega
    have hrhs : (buffer.drop idx ++ buffer.take idx).drop (c - n)
        = (buffer.take idx).drop (idx - n) := by
      rw [List.drop_append_eq_append_drop, List.length_drop, hlen,
        List.drop_eq_nil_of_le (by rw [List.length_drop, hlen]; omega),
        List.nil_append]
      congr 1
      omega
    rw [hst, hrhs]

theorem push_capacity (w : WindowBuffer) (x : List ℝ) :
    (w.push x).capacity = w.capacity := by
  simp only [push]
  split <;> rfl

theorem push_buffer_length (w : WindowBuffer) (x : List ℝ) :
    (w.push x).buffer.length = w.buffer.length := by
  simp only [push]
  split <;> simp

theorem push_index_lt (w : WindowBuffer) (x : List ℝ) (hc : 0 < w.capacity) :
    (w.push x).index < w.capacity := by
  simp only [push]
  split <;> exact Nat.mod_lt _ hc

/-- The state reached by pushing `pushes` (oldest first) into a fresh buffer. -/
def runPush (c : ℕ) (pushes : List (List ℝ)) : WindowBuffer :=
  pushes.foldl push (new c)

theorem runPush_inv (c : ℕ) (hc : 0 < c) (pushes : List (List ℝ))
    (hp : ∀ p ∈ pushes, p.length ≤ c) :
    (runPush c pushes).capacity = c ∧
      (runPush c pushes).buffer.length = c ∧
      (runPush c pushes).index < c ∧
      rot (runPush c pushes) =
        suffixN c (List.replicate c (0 : ℝ) ++ pushes.flatten) := by
  induction pushes using List.list_reverse_induction with
  | base =>
    refine ⟨rfl, by simp [runPush, new], by simpa [runPush, new] using hc, ?_⟩
    simp only [runPush, List.foldl_nil, List.flatten_nil, List.append_nil]
    unfold rot new suffixN
    simp
  | ind ps x ih =>
    have hp' : ∀ p ∈ ps, p.length ≤ c := fun p hpp => hp p (by simp [hpp])
    have hx : x.length ≤ c := hp x (by simp)
    obtain ⟨h1, h2, h3, h4⟩ := ih hp'
    have hrun : runPush c (ps ++ [x]) = (runPush c ps).push x := by
      simp [runPush]
    refine ⟨by rw [hrun, push_capacity, h1], by rw [hrun, push_buffer_length, h2],
      by
        rw [hrun]
        have hidx := push_index_lt (runPush c ps) x (by rw [h1]; exact hc)
        rwa [h1] at hidx, ?_⟩
    rw [hrun, push_rot _ _ (by rw [h2, h1]) (by rw [h1]; exact h3)
      (by rw [h1]; exact hx)]
    rw [h4]
    have hflat : (ps ++ [x]).flatten = ps.flatten ++ x := by simp
    rw [hflat, ← List.append_assoc]
    rw [suffixN_step c _ x (by simp) hx]

/-- C1.  For every `WindowBuffer` constructed with capacity `c > 0`, every
sequence of pushes each of length at most `c`, and every `n ≤ c` such that at
least `n` samples were pushed in total, `get n` returns exactly the `n` most
recently pushed samples in oldest-to-newest order (the final `n`-element
suffix of the concatenated push history), across wraparound of the write
cursor.  `get` is embedded as a pure function of the state (`buffer.rs` reads
but never writes `self` in `get`), so it cannot mutate the buffer. -/
theorem windowBuffer_get_returns_recent_history (c : ℕ) (pushes : List (List ℝ))
    (n : ℕ) (hc : 0 < c) (hp : ∀ p ∈ pushes, p.length ≤ c) (hn : n ≤ c)
    (htot : n ≤ (pushes.flatten).length) :
    (runPush c pushes).get n = suffixN n pushes.flatten := by
  obtain ⟨h1, h2, h3, h4⟩ := runPush_inv c hc pushes hp
  rw [get_eq_rot_drop _ _ (by rw [h2, h1]) (by rw [h1]; exact h3) (by rw [h1]; exact hn),
    h1, h4]
  rw [suffixN_drop c n _ (by simp) hn]
  rw [suffixN_append_right n _ _ htot]

/-- Witness for C1 at the repository's own test case: capacity 4, pushing
`[0,1,2,3]` and then `[69,420]`, `get 4 = [2,3,69,420]`. -/
theorem windowBuffer_get_returns_recent_history_witness :
    0 < 4 ∧ (∀ p ∈ [[(0 : ℝ), 1, 2, 3], [69, 420]], p.length ≤ 4) ∧ 4 ≤ 4 ∧
      4 ≤ ([[(0 : ℝ), 1, 2, 3], [69, 420]].flatten).length ∧
      (runPush 4 [[(0 : ℝ), 1, 2, 3], [69, 420]]).get 4 =
        suffixN 4 [[(0 : ℝ), 1, 2, 3], [69, 420]].flatten := by
  refine ⟨by norm_num, by simp, by norm_num, by simp, ?_⟩
  exact windowBuffer_get_returns_recent_history 4 _ 4 (by norm_num) (by simp)
    (by norm_num) (by simp)

/-- C9.  A freshly constructed `WindowBuffer(capacity)` is zero-initialized,
so for any `n ≤ capacity`, `get n` succeeds and returns `n` zeros. -/
theorem windowBuffer_new_get_zeros (c n : ℕ) (hn : n ≤ c) :
    (new c).get n = List.replicate n (0 : ℝ) := by
  unfold new get listExtract
  by_cases hn0 : n = 0
  · subst hn0
    simp
  · rw [if_pos (by simp; omega)]
    have hst : ((c : ℤ) + ((0 : ℕ) - (n : ℤ))).toNat = c - n := by omega
    simp only [Nat.cast_zero, zero_sub, hst]
    rw [List.take_zero, List.drop_nil]
    rw [List.take_replicate, List.drop_replicate]
    rw [show min c c = c from by omega]
    simp only [List.append_nil]
    congr 1
    omega

/-- Witness for C9: a fresh capacity-4 buffer yields `[0,0,0]` for `get 3`. -/
theorem windowBuffer_new_get_zeros_witness :
    3 ≤ 4 ∧ (new 4).get 3 = List.replicate 3 (0 : ℝ) :=
  ⟨by norm_num, windowBuffer_new_get_zeros 4 3 (by norm_num)⟩

end WindowBuffer

/-! ## Bucketer (`src/bucketer.rs`) -/

structure Bucketer where
  indices : List ℕ
  output : List ℝ

namespace Bucketer

/-- `to_log_scale(x) = (x + 1).log2()`. -/
noncomputable def toLogScale (x : ℝ) : ℝ := Real.logb 2 (x + 1)

/-- `from_log_scale(x) = 2^x + 1`. -/
noncomputable def fromLogScale (x : ℝ) : ℝ := (2 : ℝ) ^ x + 1

/-- The raw boundary value of loop iteration `i` of `Bucketer::new`
(bucketer.rs:34-37) before the two clamps, with `space = (s_max-s_min)/buckets`,
`delta = (s_max-s_min)/input_size` and `adj = space - delta*offset/buckets`
inlined: the Rust `(input_size_f * v / f_max).ceil() as usize` is
`(rawIdx …).toNat` (an `as usize` cast of a float saturates negatives to 0). -/
noncomputable def rawIdx (input_size buckets : ℕ) (f_min f_max : ℝ)
    (i offset : ℕ) : ℤ :=
  ⌈(input_size : ℝ) *
      fromLogScale (((i : ℝ) + 1) *
            ((toLogScale f_max - toLogScale f_min) / (buckets : ℝ) -
              (toLogScale f_max - toLogScale f_min) / (input_size : ℝ) * (offset : ℝ) /
                (buckets : ℝ)) +
          toLogScale f_min +
          (offset : ℝ) * ((toLogScale f_max - toLogScale f_min) / (input_size : ℝ))) /
      f_max⌉

/-- The index produced by one iteration of the `Bucketer::new` boundary loop
(bucketer.rs:39-47): `if idx <= last_idx { idx = last_idx + 1 }` followed by
`if idx >= input_size { idx = input_size - 1 }`. -/
def advanceIdx (input_size last idx0 : ℕ) : ℕ :=
  if idx0 ≤ last then
    if last + 1 ≥ input_size then input_size - 1 else last + 1
  else
    if idx0 ≥ input_size then input_size - 1 else idx0

/-- The `offset` accumulator update of the same iteration (bucketer.rs:39-42):
incremented exactly when the computed boundary failed to advance. -/
def advanceOff (last off idx0 : ℕ) : ℕ :=
  if idx0 ≤ last then off + 1 else off

/-- The boundary loop of `Bucketer::new` (bucketer.rs:33-49), abstracted over
the raw (pre-clamp) float computation `raw i offset`.  `last` is `last_idx`,
`off` the integer value of the `offset` accumulator, `n` the remaining
iteration count. -/
def goIndices (input_size : ℕ) (raw : ℕ → ℕ → ℤ) : ℕ → ℕ → ℕ → ℕ → List ℕ
  | _, _, _, 0 => []
  | i, last, off, n + 1 =>
    advanceIdx input_size last (raw i off).toNat ::
      goIndices input_size raw (i + 1) (advanceIdx input_size last (raw i off).toNat)
        (advanceOff last off (raw i off).toNat) n

/-- The `indices` vector computed by `Bucketer::new(input_size, buckets,
f_min, f_max)`. -/
noncomputable def newIndices (input_size buckets : ℕ) (f_min f_max : ℝ) :
    List ℕ :=
  goIndices input_size (rawIdx input_size buckets f_min f_max) 0 0 0 (buckets - 1)

/-- `Bucketer::new`. -/
noncomputable def new (input_size buckets : ℕ) (f_min f_max : ℝ) : Bucketer :=
  { indices := newIndices input_size buckets f_min f_max,
    output := List.replicate buckets 0 }

/-- The `start` bound of output bucket `i` (bucketer.rs:57). -/
def bucketStart (indices : List ℕ) (i : ℕ) : ℕ :=
  if i = 0 then 0 else indices.getD (i - 1) 0

/-- The `stop` bound of output bucket `i` (bucketer.rs:58-62): the last bucket
always ends at `input.len()`. -/
def bucketStop (indices : List ℕ) (nOut : ℕ) (input : List ℝ) (i : ℕ) : ℕ :=
  if i = nOut - 1 then input.length else indices.getD i 0

/-- The output vector written by `Bucketer::bucket` (bucketer.rs:55-69):
bucket `i` is the average of `input[start..stop]`. -/
noncomputable def bucketOut (indices : List ℕ) (nOut : ℕ) (input : List ℝ) :
    List ℝ :=
  (List.range nOut).map fun i =>
    (listExtract input (bucketStart indices i) (bucketStop indices nOut input i)).sum /
      ((bucketStop indices nOut input i - bucketStart indices i : ℕ) : ℝ)

/-- `Bucketer::bucket`, returning the updated state and the output slice. -/
noncomputable def bucket (b : Bucketer) (input : List ℝ) : Bucketer × List ℝ :=
  let out := bucketOut b.indices b.output.length input
  ({ b with output := out }, out)

/-!  Numeric helper lemmas: rational bounds for `2 ^ (num/den)` obtained from
natural-number comparisons. -/

theorem two_rpow_div_pow_eq (num den : ℕ) (hden : 0 < den) :
    ((2 : ℝ) ^ ((num : ℝ) / (den : ℝ))) ^ den = (2 : ℝ) ^ num := by
  rw [← Real.rpow_natCast ((2 : ℝ) ^ ((num : ℝ) / (den : ℝ))) den]
  rw [← Real.rpow_mul (by norm_num : (0 : ℝ) ≤ 2)]
  rw [div_mul_cancel₀ _ (by exact_mod_cast hden.ne' : ((den : ℝ) ≠ 0))]
  exact Real.rpow_natCast 2 num

theorem two_rpow_div_le_nat (num den M : ℕ) (hden : 0 < den)
    (h : 2 ^ num ≤ M ^ den) :
    (2 : ℝ) ^ ((num : ℝ) / (den : ℝ)) ≤ (M : ℝ) := by
  have hx : (0 : ℝ) ≤ (2 : ℝ) ^ ((num : ℝ) / (den : ℝ)) :=
    (Real.rpow_pos_of_pos (by norm_num) _).le
  rw [← pow_le_pow_iff_left₀ hx (by positivity) hden.ne']
  rw [two_rpow_div_pow_eq num den hden]
  exact_mod_cast h

theorem nat_lt_two_rpow_div (num den M : ℕ) (hden : 0 < den)
    (h : M ^ den < 2 ^ num) :
    (M : ℝ) < (2 : ℝ) ^ ((num : ℝ) / (den : ℝ)) := by
  have hx : (0 : ℝ) ≤ (2 : ℝ) ^ ((num : ℝ) / (den : ℝ)) :=
    (Real.rpow_pos_of_pos (by norm_num) _).le
  rw [← pow_lt_pow_iff_left₀ (by positivity) hx hden.ne']
  rw [two_rpow_div_pow_eq num den hden]
  exact_mod_cast h

theorem logb_two_le_div (M num den : ℕ) (hM : 0 < M) (hden : 0 < den)
    (h : M ^ den ≤ 2 ^ num) :
    Real.logb 2 (M : ℝ) ≤ (num : ℝ) / (den : ℝ) := by
  rw [Real.logb_le_iff_le_rpow (by norm_num) (by exact_mod_cast hM)]
  have hx : (0 : ℝ) ≤ (M : ℝ) := by positivity
  have hy : (0 : ℝ) ≤ (2 : ℝ) ^ ((num : ℝ) / (den : ℝ)) :=
    (Real.rpow_pos_of_pos (by norm_num) _).le
  rw [← pow_le_pow_iff_left₀ hx hy hden.ne', two_rpow_div_pow_eq num den hden]
  exact_mod_cast h

theorem div_le_logb_two (M num den : ℕ) (hM : 0 < M) (hden : 0 < den)
    (h : 2 ^ num ≤ M ^ den) :
    (num : ℝ) / (den : ℝ) ≤ Real.logb 2 (M : ℝ) := by
  rw [Real.le_logb_iff_rpow_le (by norm_num) (by exact_mod_cast hM)]
  have hx : (0 : ℝ) ≤ (2 : ℝ) ^ ((num : ℝ) / (den : ℝ)) :=
    (Real.rpow_pos_of_pos (by norm_num) _).le
  have hy : (0 : ℝ) ≤ (M : ℝ) := by positivity
  rw [← pow_le_pow_iff_left₀ hx hy hden.ne', two_rpow_div_pow_eq num den hden]
  exact_mod_cast h

/-!  Structural invariants of the boundary loop. -/

theorem advanceIdx_lt (isz last idx0 : ℕ) (h1 : 1 ≤ isz) :
    advanceIdx isz last idx0 < isz := by
  unfold advanceIdx
  split_ifs <;> omega

theorem advanceIdx_rel (isz last idx0 : ℕ) (hlast : last < isz) :
    last < advanceIdx isz last idx0 ∨
      (last = isz - 1 ∧ advanceIdx isz last idx0 = isz - 1) := by
  unfold advanceIdx
  split_ifs <;> omega

theorem goIndices_mem_lt (isz : ℕ) (raw : ℕ → ℕ → ℤ) (h1 : 1 ≤ isz) :
    ∀ (n i last off j : ℕ), j ∈ goIndices isz raw i last off n → j < isz := by
  intro n
  induction n with
  | zero => intro i last off j hj; simp [goIndices] at hj
  | succ n ih =>
    intro i last off j hj
    rw [goIndices] at hj
    rcases List.mem_cons.mp hj with h | h
    · exact h ▸ advanceIdx_lt isz last _ h1
    · exact ih _ _ _ _ h

theorem goIndices_chain (isz : ℕ) (raw : ℕ → ℕ → ℤ) (h1 : 1 ≤ isz) :
    ∀ (n i last off : ℕ), last < isz →
      List.Chain (fun a b => a < b ∨ (a = isz - 1 ∧ b = isz - 1)) last
        (goIndices isz raw i last off n) := by
  intro n
  induction n with
  | zero => intro i last off _; simp [goIndices]
  | succ n ih =>
    intro i last off hlast
    rw [goIndices]
    exact List.Chain.cons (advanceIdx_rel isz last _ hlast)
      (ih _ _ _ (advanceIdx_lt isz last _ h1))

theorem toLogScale_zero : toLogScale 0 = 0 := by
  unfold toLogScale
  norm_num

theorem toLogScale_three : toLogScale 3 = 2 := by
  unfold toLogScale
  have h4 : (3 : ℝ) + 1 = (2 : ℝ) ^ (((2 : ℕ) : ℝ)) := by
    rw [Real.rpow_natCast]
    norm_num
  rw [h4, Real.logb_rpow (by norm_num) (by norm_num)]
  norm_num

theorem rawIdx_2_3_at_0 : rawIdx 2 3 0 3 0 0 = 2 := by
  unfold rawIdx fromLogScale
  rw [toLogScale_zero, toLogScale_three]
  have h1 : (1 : ℝ) < (2 : ℝ) ^ ((2 : ℝ) / 3) := by
    have := Real.rpow_lt_rpow_of_exponent_lt (by norm_num : (1 : ℝ) < 2)
      (by norm_num : (0 : ℝ) < 2 / 3)
    rwa [Real.rpow_zero] at this
  have h2 : (2 : ℝ) ^ ((2 : ℝ) / 3) ≤ 2 := by
    have := two_rpow_div_le_nat 2 3 2 (by norm_num) (by norm_num)
    push_cast at this
    exact this
  norm_num
  rw [Int.ceil_eq_iff]
  constructor
  · push_cast
    linarith
  · push_cast
    linarith

theorem rawIdx_2_3_at_1 : rawIdx 2 3 0 3 1 0 = 3 := by
  unfold rawIdx fromLogScale
  rw [toLogScale_zero, toLogScale_three]
  have h1 : (2 : ℝ) < (2 : ℝ) ^ ((4 : ℝ) / 3) := by
    have := Real.rpow_lt_rpow_of_exponent_lt (by norm_num : (1 : ℝ) < 2)
      (by norm_num : (1 : ℝ) < 4 / 3)
    rwa [Real.rpow_one] at this
  have h2 : (2 : ℝ) ^ ((4 : ℝ) / 3) ≤ 3 := by
    have := two_rpow_div_le_nat 4 3 3 (by norm_num) (by norm_num)
    push_cast at this
    exact this
  norm_num
  rw [Int.ceil_eq_iff]
  constructor
  · push_cast
    linarith
  · push_cast
    linarith

theorem newIndices_2_3 : newIndices 2 3 0 3 = [1, 1] := by
  show goIndices 2 (rawIdx 2 3 0 3) 0 0 0 2 = [1, 1]
  rw [goIndices, rawIdx_2_3_at_0]
  norm_num [advanceIdx, advanceOff]
  rw [goIndices, rawIdx_2_3_at_1]
  norm_num [advanceIdx, advanceOff, goIndices]

theorem toLogScale_32_lo : (504 : ℝ) / 100 ≤ toLogScale 32 := by
  have h := div_le_logb_two 33 504 100 (by norm_num) (by norm_num) (by norm_num)
  push_cast at h
  unfold toLogScale
  norm_num
  linarith

theorem toLogScale_32_hi : toLogScale 32 ≤ (505 : ℝ) / 100 := by
  have h := logb_two_le_div 33 505 100 (by norm_num) (by norm_num) (by norm_num)
  push_cast at h
  unfold toLogScale
  norm_num
  linarith

theorem toLogScale_16000_lo : (1396 : ℝ) / 100 ≤ toLogScale 16000 := by
  have h := div_le_logb_two 16001 1396 100 (by norm_num) (by norm_num) (by norm_num)
  push_cast at h
  unfold toLogScale
  norm_num
  linarith

theorem toLogScale_16000_hi : toLogScale 16000 ≤ (1397 : ℝ) / 100 := by
  have h := logb_two_le_div 16001 1397 100 (by norm_num) (by norm_num) (by norm_num)
  push_cast at h
  unfold toLogScale
  norm_num
  linarith

theorem rawIdx_16_4_at_0 : rawIdx 16 4 32 16000 0 0 = 1 := by
  have hs1 := toLogScale_32_lo
  have hs2 := toLogScale_32_hi
  have hS1 := toLogScale_16000_lo
  have hS2 := toLogScale_16000_hi
  have hup : (2 : ℝ) ^ ((729 : ℝ) / 100) ≤ 999 := by
    have := two_rpow_div_le_nat 729 100 999 (by norm_num) (by norm_num)
    push_cast at this
    linarith
  unfold rawIdx fromLogScale
  rw [Int.ceil_eq_iff]
  constructor
  · push_cast
    have hpos : (0 : ℝ) < (2 : ℝ) ^ (((0 : ℝ) + 1) *
            ((toLogScale 16000 - toLogScale 32) / (4 : ℝ) -
              (toLogScale 16000 - toLogScale 32) / (16 : ℝ) * (0 : ℝ) / (4 : ℝ)) +
          toLogScale 32 + (0 : ℝ) * ((toLogScale 16000 - toLogScale 32) / (16 : ℝ))) :=
      Real.rpow_pos_of_pos (by norm_num) _
    nlinarith
  · push_cast
    have hstep : (16 : ℝ) * ((2 : ℝ) ^ ((729 : ℝ) / 100) + 1) / 16000 ≤ 1 := by
      rw [div_le_one (by norm_num)]
      linarith
    refine le_trans ?_ hstep
    gcongr
    · norm_num
    · linarith

theorem rawIdx_16_4_at_1 : rawIdx 16 4 32 16000 1 0 = 1 := by
  have hs1 := toLogScale_32_lo
  have hs2 := toLogScale_32_hi
  have hS1 := toLogScale_16000_lo
  have hS2 := toLogScale_16000_hi
  have hup : (2 : ℝ) ^ ((951 : ℝ) / 100) ≤ 999 := by
    have := two_rpow_div_le_nat 951 100 999 (by norm_num) (by norm_num)
    push_cast at this
    linarith
  unfold rawIdx fromLogScale
  rw [Int.ceil_eq_iff]
  constructor
  · push_cast
    norm_num
    positivity
  · push_cast
    have hstep : (16 : ℝ) * ((2 : ℝ) ^ ((951 : ℝ) / 100) + 1) / 16000 ≤ 1 := by
      rw [div_le_one (by norm_num)]
      linarith
    refine le_trans ?_ hstep
    gcongr
    · norm_num
    · linarith

theorem rawIdx_16_4_at_2 : rawIdx 16 4 32 16000 2 1 = 4 := by
  have hs1 := toLogScale_32_lo
  have hs2 := toLogScale_32_hi
  have hS1 := toLogScale_16000_lo
  have hS2 := toLogScale_16000_hi
  have hup : (2 : ℝ) ^ ((1189 : ℝ) / 100) ≤ 3999 := by
    have := two_rpow_div_le_nat 1189 100 3999 (by norm_num) (by norm_num)
    push_cast at this
    linarith
  have hlo : (2999 : ℝ) < (2 : ℝ) ^ ((1186 : ℝ) / 100) := by
    have := nat_lt_two_rpow_div 1186 100 2999 (by norm_num) (by norm_num)
    push_cast at this
    linarith
  unfold rawIdx fromLogScale
  rw [Int.ceil_eq_iff]
  constructor
  · push_cast
    have hstep : (4 : ℝ) - 1 < 16 * ((2 : ℝ) ^ ((1186 : ℝ) / 100) + 1) / 16000 := by
      rw [lt_div_iff₀ (by norm_num)]
      linarith
    refine lt_of_lt_of_le hstep ?_
    gcongr
    · norm_num
    · linarith
  · push_cast
    have hstep : (16 : ℝ) * ((2 : ℝ) ^ ((1189 : ℝ) / 100) + 1) / 16000 ≤ 4 := by
      rw [div_le_iff₀ (by norm_num)]
      linarith
    refine le_trans ?_ hstep
    gcongr
    · norm_num
    · linarith

/-- C2 (amended).  For every `input_size ≥ 1`, any bucket count and any
`f_min`, `f_max`, the boundary indices of `Bucketer::new` are non-decreasing,
and strictly increasing except that once a boundary saturates at
`input_size - 1` every later boundary repeats that value; all boundaries lie
below `input_size`, and the final implied boundary used by `bucket()` (the
`stop` of the last output bucket) equals the spectrum's length. -/
theorem bucketer_boundaries_monotone (isz buckets : ℕ) (f_min f_max : ℝ)
    (h1 : 1 ≤ isz) :
    List.Chain (fun a b => a < b ∨ (a = isz - 1 ∧ b = isz - 1)) 0
        (newIndices isz buckets f_min f_max) ∧
      (∀ j ∈ newIndices isz buckets f_min f_max, j < isz) ∧
      ∀ input : List ℝ,
        bucketStop (newIndices isz buckets f_min f_max) buckets input (buckets - 1)
          = input.length := by
  refine ⟨goIndices_chain isz _ h1 _ _ _ _ (by omega),
    fun j hj => goIndices_mem_lt isz _ h1 _ _ _ _ j hj, fun input => ?_⟩
  simp [bucketStop]

/-- Witness for C2 (amended) at the analyzer's own configuration
`Bucketer::new(16, 4, 32, 16000)`. -/
theorem bucketer_boundaries_monotone_witness :
    1 ≤ 16 ∧
      (List.Chain (fun a b => a < b ∨ (a = 16 - 1 ∧ b = 16 - 1)) 0
          (newIndices 16 4 32 16000) ∧
        (∀ j ∈ newIndices 16 4 32 16000, j < 16) ∧
        ∀ input : List ℝ,
          bucketStop (newIndices 16 4 32 16000) 4 input (4 - 1) = input.length) :=
  ⟨by norm_num, bucketer_boundaries_monotone 16 4 32 16000 (by norm_num)⟩

/-- C2 counterexample.  `Bucketer::new(2, 3, 0., 3.)` (three buckets, so
`buckets ≥ 2`, and `f_min = 0 < 3 = f_max`) computes the boundary indices
`[1, 1]`: the second boundary is clamped down to `input_size - 1 = 1` and
repeats the first, so the boundary sequence is not strictly increasing. -/
theorem bucketer_strict_increase_fails :
    2 ≤ 3 ∧ (0 : ℝ) < 3 ∧ newIndices 2 3 0 3 = [1, 1] ∧
      ¬ List.Pairwise (· < ·) (newIndices 2 3 0 3) := by
  refine ⟨by norm_num, by norm_num, newIndices_2_3, ?_⟩
  rw [newIndices_2_3]
  decide

theorem newIndices_16_4 : newIndices 16 4 32 16000 = [1, 2, 4] := by
  show goIndices 16 (rawIdx 16 4 32 16000) 0 0 0 3 = [1, 2, 4]
  rw [goIndices, rawIdx_16_4_at_0]
  norm_num [advanceIdx, advanceOff]
  rw [goIndices, rawIdx_16_4_at_1]
  norm_num [advanceIdx, advanceOff]
  rw [goIndices, rawIdx_16_4_at_2]
  have h4 : Int.toNat 4 = 4 := rfl
  norm_num [advanceIdx, advanceOff, goIndices, h4]

/-- `Bucketer::new` with its fatal paths made explicit, abstracted over the
raw boundary computation: `vec![0; buckets - 1]` underflows `usize` for
`buckets = 0` (bucketer.rs:20, a panic in debug builds), and `input_size - 1`
underflows when the upper clamp fires with `input_size = 0`
(bucketer.rs:43-45).  The float computation itself never panics. -/
def goIndicesChecked (input_size : ℕ) (raw : ℕ → ℕ → ℤ) :
    ℕ → ℕ → ℕ → ℕ → Option (List ℕ)
  | _, _, _, 0 => some []
  | i, last, off, n + 1 =>
    if (if (raw i off).toNat ≤ last then last + 1 else (raw i off).toNat) ≥ input_size
        ∧ input_size = 0 then
      none
    else
      (goIndicesChecked input_size raw (i + 1)
          (advanceIdx input_size last (raw i off).toNat)
          (advanceOff last off (raw i off).toNat) n).map
        (advanceIdx input_size last (raw i off).toNat :: ·)

/-- The checked constructor loop of `Bucketer::new`. -/
def bucketerNewChecked (input_size buckets : ℕ) (raw : ℕ → ℕ → ℤ) :
    Option (List ℕ) :=
  if buckets = 0 then none
  else goIndicesChecked input_size raw 0 0 0 (buckets - 1)

theorem goIndicesChecked_pos (isz : ℕ) (raw : ℕ → ℕ → ℤ) (h1 : 1 ≤ isz) :
    ∀ (n i last off : ℕ),
      goIndicesChecked isz raw i last off n = some (goIndices isz raw i last off n) := by
  intro n
  induction n with
  | zero => intro i last off; rfl
  | succ n ih =>
    intro i last off
    rw [goIndicesChecked, goIndices, if_neg (by omega), ih]
    rfl

theorem goIndicesChecked_zero_none (raw : ℕ → ℕ → ℤ) (n i last off : ℕ)
    (hn : 1 ≤ n) : goIndicesChecked 0 raw i last off n = none := by
  cases n with
  | zero => omega
  | succ n => rw [goIndicesChecked, if_pos (by omega)]

theorem bucketerNewChecked_none_iff (isz buckets : ℕ) (raw : ℕ → ℕ → ℤ) :
    bucketerNewChecked isz buckets raw = none ↔
      buckets = 0 ∨ (2 ≤ buckets ∧ isz = 0) := by
  unfold bucketerNewChecked
  by_cases hb : buckets = 0
  · simp [hb]
  · rw [if_neg hb]
    by_cases hb1 : buckets = 1
    · subst hb1
      show goIndicesChecked isz raw 0 0 0 0 = none ↔ _
      simp [goIndicesChecked]
    · by_cases hisz : isz = 0
      · subst hisz
        rw [goIndicesChecked_zero_none raw _ _ _ _ (by omega)]
        simp
        omega
      · rw [goIndicesChecked_pos isz raw (by omega)]
        simp
        omega

/-- C8.  `Bucketer::bucket` averages the input between consecutive boundary
indices (first bucket `[0, indices[0])`, last bucket
`[indices.last, input.len())`): for `Bucketer::new(16, 4, 32., 16000.)` the
boundaries are `[1, 2, 4]`, so the all-ones length-16 vector maps to
`[1, 1, 1, 1]` and `[0, 1, …, 15]` maps exactly to `[0, 1, 2.5, 9.5]`. -/
theorem bucketer_16_4_exact_averages :
    newIndices 16 4 32 16000 = [1, 2, 4] ∧
      ((Bucketer.new 16 4 32 16000).bucket (List.replicate 16 (1 : ℝ))).2
        = [1, 1, 1, 1] ∧
      ((Bucketer.new 16 4 32 16000).bucket
          [(0 : ℝ), 1, 2, 3, 4, 5, 6, 7, 8, 9, 10, 11, 12, 13, 14, 15]).2
        = [0, 1, 5 / 2, 19 / 2] := by
  refine ⟨newIndices_16_4, ?_, ?_⟩ <;>
  · simp only [bucket, new, newIndices_16_4]
    norm_num [bucketOut, bucketStart, bucketStop, listExtract, List.range_succ]

end Bucketer

namespace WindowBuffer

/-- The state shape `WindowBuffer::new` establishes and `push` preserves. -/
def Valid (w : WindowBuffer) : Prop :=
  w.buffer.length = w.capacity ∧ (0 < w.capacity → w.index < w.capacity) ∧
    (w.capacity = 0 → w.index = 0)

/-- `buf[i] = a` with the bounds check Rust performs on every index. -/
def setChecked (l : List ℝ) (i : ℕ) (a : ℝ) : Option (List ℝ) :=
  if i < l.length then some (l.set i a) else none

/-- `copyInto` with every write bounds-checked. -/
def copyIntoChecked (buf : List ℝ) (start : ℕ) (xs : List ℝ) :
    Option (List ℝ) :=
  match xs with
  | [] => some buf
  | y :: ys => (setChecked buf start y).bind fun b => copyIntoChecked b (start + 1) ys

/-- `WindowBuffer::push` with its panics made explicit: the `panic!` guard
(buffer.rs:19-21), the bounds-checked slice writes of the two copy loops, and
the trailing `% self.capacity` (buffer.rs:40), which is a division-by-zero
panic when `capacity = 0`. -/
def pushChecked (w : WindowBuffer) (x : List ℝ) : Option WindowBuffer :=
  if x.length > w.capacity then none
  else
    (copyIntoChecked w.buffer w.index
        (x.take ((if w.index + x.length > w.capacity then w.capacity
            else w.index + x.length) - w.index))).bind fun buf1 =>
    (if w.index + x.length > w.capacity then
        copyIntoChecked buf1 0 (x.drop (w.capacity - w.index))
      else some buf1).bind fun buf2 =>
    if w.capacity = 0 then none
    else some ⟨buf2, (w.index + x.length) % w.capacity, w.capacity⟩

/-- Reading `l[i]` for every `i ∈ [a, b)`, with the Rust bounds check. -/
def readRangeChecked (l : List ℝ) (a b : ℕ) : Option (List ℝ) :=
  if b ≤ l.length ∨ b ≤ a then some (listExtract l a b) else none

/-- `WindowBuffer::get` with its panics made explicit: the `panic!` guard
(buffer.rs:44-46) and the bounds-checked buffer reads of the two copy
loops. -/
def getChecked (w : WindowBuffer) (n : ℕ) : Option (List ℝ) :=
  if n > w.capacity then none
  else if (w.index : ℤ) - (n : ℤ) < 0 then
    (readRangeChecked w.buffer ((w.capacity : ℤ) + ((w.index : ℤ) - (n : ℤ))).toNat
        w.capacity).bind fun p1 =>
    (readRangeChecked w.buffer 0 w.index).bind fun p2 => some (p1 ++ p2)
  else
    readRangeChecked w.buffer ((w.index : ℤ) - (n : ℤ)).toNat w.index

theorem copyIntoChecked_eq_some (xs : List ℝ) :
    ∀ (buf : List ℝ) (start : ℕ), start + xs.length ≤ buf.length →
      copyIntoChecked buf start xs = some (copyInto buf start xs) := by
  induction xs with
  | nil => intro buf start _; rfl
  | cons y ys ih =>
    intro buf start h
    have hyl : (y :: ys).length = ys.length + 1 := rfl
    rw [hyl] at h
    unfold copyIntoChecked setChecked
    rw [if_pos (by omega)]
    rw [Option.some_bind]
    rw [ih _ _ (by rw [List.length_set]; omega)]
    rfl

theorem pushChecked_eq (w : WindowBuffer) (x : List ℝ) (hv : w.Valid)
    (hx : x.length ≤ w.capacity) (hc : 0 < w.capacity) :
    pushChecked w x = some (w.push x) := by
  obtain ⟨hlen, hidx, -⟩ := hv
  have hidx' := hidx hc
  unfold pushChecked push
  rw [if_neg (by omega : ¬ x.length > w.capacity)]
  by_cases hw : w.index + x.length > w.capacity
  · simp only [if_pos hw]
    rw [copyIntoChecked_eq_some _ _ _ (by rw [List.length_take]; omega),
      Option.some_bind,
      copyIntoChecked_eq_some _ _ _ (by rw [List.length_drop, length_copyInto]; omega),
      Option.some_bind, if_neg (by omega : ¬ w.capacity = 0)]
  · simp only [if_neg hw]
    rw [show w.index + x.length - w.index = x.length from by omega, List.take_length]
    rw [copyIntoChecked_eq_some _ _ _ (by omega), Option.some_bind, Option.some_bind,
      if_neg (by omega : ¬ w.capacity = 0)]

theorem pushChecked_none_iff (w : WindowBuffer) (x : List ℝ) (hv : w.Valid) :
    pushChecked w x = none ↔ w.capacity < x.length ∨ w.capacity = 0 := by
  constructor
  · intro h
    by_contra hcon
    push_neg at hcon
    obtain ⟨h1, h2⟩ := hcon
    rw [pushChecked_eq w x hv h1 (by omega)] at h
    exact Option.noConfusion h
  · intro h
    by_cases hxc : x.length > w.capacity
    · unfold pushChecked
      rw [if_pos hxc]
    · rcases h with h | h
      · omega
      · obtain ⟨hlen, -, hz⟩ := hv
        have hi0 : w.index = 0 := hz h
        unfold pushChecked
        rw [if_neg hxc]
        have hx0 : x.length = 0 := by omega
        rw [hi0, h, hx0]
        rw [if_neg (by omega), List.take_zero]
        rw [show copyIntoChecked w.buffer 0 [] = some w.buffer from rfl]
        rw [Option.some_bind, if_neg (by omega), Option.some_bind, if_pos rfl]

theorem getChecked_eq (w : WindowBuffer) (n : ℕ) (hv : w.Valid)
    (hn : n ≤ w.capacity) :
    getChecked w n = some (w.get n) := by
  obtain ⟨hlen, hidx, hz⟩ := hv
  unfold getChecked get
  rw [if_neg (by omega)]
  by_cases hs : (w.index : ℤ) - (n : ℤ) < 0
  · rw [if_pos hs, if_pos hs]
    unfold readRangeChecked
    rw [if_pos (Or.inl (by omega))]
    rw [Option.some_bind]
    rw [if_pos (Or.inl (by omega))]
    rfl
  · rw [if_neg hs, if_neg hs]
    unfold readRangeChecked
    rw [if_pos (Or.inl (by
      have : 0 < w.capacity ∨ w.capacity = 0 := by omega
      rcases this with h | h
      · have := hidx h
        omega
      · have := hz h
        omega))]

theorem getChecked_none_iff (w : WindowBuffer) (n : ℕ) (hv : w.Valid) :
    getChecked w n = none ↔ w.capacity < n := by
  constructor
  · intro h
    by_contra hcon
    push_neg at hcon
    rw [getChecked_eq w n hv hcon] at h
    exact Option.noConfusion h
  · intro h
    unfold getChecked
    rw [if_pos (by omega)]

end WindowBuffer

/-- C7 (amended).  Sizing-contract violations are signaled by panics and, for
buffers of positive capacity, those are the only panics: for a valid
`WindowBuffer`, `push(x)` panics iff `x.len() > capacity` or `capacity = 0`
(the cursor update `% capacity` divides by zero), and `get(n)` panics iff
`n > capacity`.  `Bucketer::new`, however, accepts one bucket: it only dies
for `buckets = 0` (a `usize` underflow in `vec![0; buckets - 1]`), or for
`buckets ≥ 2` with `input_size = 0` (underflow of `input_size - 1`). -/
theorem sizing_contract_panics (w : WindowBuffer) (x : List ℝ)
    (n isz buckets : ℕ) (raw : ℕ → ℕ → ℤ) (hv : w.Valid) :
    (WindowBuffer.pushChecked w x = none ↔
        w.capacity < x.length ∨ w.capacity = 0) ∧
      (WindowBuffer.getChecked w n = none ↔ w.capacity < n) ∧
      (x.length ≤ w.capacity → 0 < w.capacity →
        WindowBuffer.pushChecked w x = some (w.push x)) ∧
      (n ≤ w.capacity → WindowBuffer.getChecked w n = some (w.get n)) ∧
      (Bucketer.bucketerNewChecked isz buckets raw = none ↔
        buckets = 0 ∨ (2 ≤ buckets ∧ isz = 0)) :=
  ⟨WindowBuffer.pushChecked_none_iff w x hv,
    WindowBuffer.getChecked_none_iff w n hv,
    fun h1 h2 => WindowBuffer.pushChecked_eq w x hv h1 h2,
    fun h1 => WindowBuffer.getChecked_eq w n hv h1,
    Bucketer.bucketerNewChecked_none_iff isz buckets raw⟩

/-- Witness for C7 (amended) at capacity 4, a 2-sample push, `get 2` and the
analyzer's `Bucketer::new(16, 3, …)` raw computation. -/
theorem sizing_contract_panics_witness :
    (WindowBuffer.new 4).Valid ∧
      ((WindowBuffer.pushChecked (WindowBuffer.new 4) [5, 6] = none ↔
          (WindowBuffer.new 4).capacity < ([(5 : ℝ), 6]).length ∨
            (WindowBuffer.new 4).capacity = 0) ∧
        (WindowBuffer.getChecked (WindowBuffer.new 4) 2 = none ↔
          (WindowBuffer.new 4).capacity < 2) ∧
        (([(5 : ℝ), 6]).length ≤ (WindowBuffer.new 4).capacity →
          0 < (WindowBuffer.new 4).capacity →
          WindowBuffer.pushChecked (WindowBuffer.new 4) [5, 6] =
            some ((WindowBuffer.new 4).push [5, 6])) ∧
        (2 ≤ (WindowBuffer.new 4).capacity →
          WindowBuffer.getChecked (WindowBuffer.new 4) 2 =
            some ((WindowBuffer.new 4).get 2)) ∧
        (Bucketer.bucketerNewChecked 16 3 (Bucketer.rawIdx 16 3 32 16000) = none ↔
          3 = 0 ∨ (2 ≤ 3 ∧ 16 = 0))) :=
  ⟨⟨by simp [WindowBuffer.new], by simp [WindowBuffer.new], by simp [WindowBuffer.new]⟩,
    sizing_contract_panics (WindowBuffer.new 4) [5, 6] 2 16 3
      (Bucketer.rawIdx 16 3 32 16000)
      ⟨by simp [WindowBuffer.new], by simp [WindowBuffer.new], by simp [WindowBuffer.new]⟩⟩

/-- C7 counterexample.  `Bucketer::new(16, 1, 32., 16000.)` has fewer than 2
buckets, yet it constructs successfully (the boundary loop never runs and no
panic occurs), so "constructing a Bucketer with fewer than 2 buckets fails as
a fatal contract violation" is false on the code. -/
theorem bucketer_one_bucket_constructs :
    1 < 2 ∧
      Bucketer.bucketerNewChecked 16 1 (Bucketer.rawIdx 16 1 32 16000) = some [] :=
  ⟨by norm_num, rfl⟩

/-! ## Filter coefficients (`src/filter.rs` / `src/params.rs`)

Both precision variants of `FilterParams` carry the derived feedback
coefficients `(a, b)`; the claims quantify over them directly. -/

structure FilterParams where
  a : ℝ
  b : ℝ

/-! ## GainController / BoostController (`src/gain_control.rs`, `f64`) -/

namespace GainControl

structure Params where
  filter_params : FilterParams
  kp : ℝ
  kd : ℝ
  ki : ℝ
  pre_gain : ℝ

structure Filter where
  values : List ℝ

/-- `Filter::new` (filter.rs:82-86). -/
def Filter.new (size : ℕ) : Filter :=
  ⟨List.replicate size 0⟩

/-- `Filter::process` (filter.rs:107-111):
`values[i] = a*input[i] + b*values[i]` for `i in 0..input.len()`. -/
def Filter.process (f : Filter) (input : List ℝ) (p : FilterParams) : Filter :=
  ⟨loopSet (fun i v => p.a * input.getD i 0 + p.b * v) input.length f.values⟩

structure GainController where
  filter : Filter
  values : List ℝ
  err : List ℝ

/-- `GainController::new` (gain_control.rs:37-43): gains start at 1. -/
def GainController.new (size : ℕ) : GainController :=
  ⟨Filter.new size, List.replicate size 1, List.replicate size 0⟩

/-- Rust `f64::clamp(lo, hi)` on non-NaN values. -/
noncomputable def rclamp (x lo hi : ℝ) : ℝ :=
  if x < lo then lo else if x > hi then hi else x

/-- `GainController::error` (gain_control.rs:53-56). -/
noncomputable def gcError (x : ℝ) : ℝ :=
  rclamp (if max x 0.0000001 < 1 then 1 / max x 0.0000001 - 1
    else 1 - max x 0.0000001) (-32) 32

/-- The gain update clamp of `GainController::process`
(gain_control.rs:72-76): `x > 1e6 → 1e6`, `x < 1e-6 → 1e-6`, else `x`. -/
noncomputable def gainClamp (x : ℝ) : ℝ :=
  if x > 1e6 then 1e6 else if x < 1e-6 then 1e-6 else x

/-- `GainController::process` (gain_control.rs:58-78).  Returns the updated
controller and the pre-gained input vector (`input` is mutated in place in
the source). -/
noncomputable def GainController.process (g : GainController) (input : List ℝ)
    (p : Params) : GainController × List ℝ :=
  let input1 := loopSet (fun i v => v * (g.values.getD i 0 * p.pre_gain))
    input.length input
  let filter1 := g.filter.process input1 p.filter_params
  let err1 := loopSet
    (fun i e => 0.99 * e + 0.01 * gcError (filter1.values.getD i 0))
    input.length g.err
  let values1 := loopSet
    (fun i v =>
      gainClamp (v + (p.kp * gcError (filter1.values.getD i 0) +
        p.ki * err1.getD i 0 +
        p.kd * (err1.getD i 0 - gcError (filter1.values.getD i 0)))))
    input.length g.values
  (⟨filter1, values1, err1⟩, input1)

/-- The controller state after a sequence of `process` calls from `new`. -/
noncomputable def runGC (size : ℕ) (p : Params) (inputs : List (List ℝ)) :
    GainController :=
  inputs.foldl (fun g x => (GainController.process g x p).1) (GainController.new size)

structure BoostController where
  gc : GainController

/-- `BoostController::new` (gain_control.rs:116-120). -/
def BoostController.new : BoostController :=
  ⟨GainController.new 1⟩

/-- `BoostController::process` (gain_control.rs:122-131): gain-control the
frame's RMS, then scale the whole frame by the resulting single gain. -/
noncomputable def BoostController.process (b : BoostController) (frame : List ℝ)
    (p : Params) : BoostController × List ℝ :=
  let rms := Real.sqrt ((frame.map (fun x => x * x)).sum / (frame.length : ℝ))
  let g1 := (GainController.process b.gc [rms] p).1
  let scale := g1.values.getD 0 0
  (⟨g1⟩, frame.map (fun x => x * scale))

theorem gainClamp_mem (y : ℝ) :
    (1e-6 : ℝ) ≤ gainClamp y ∧ gainClamp y ≤ 1e6 := by
  unfold gainClamp
  split_ifs with h1 h2
  · norm_num
  · norm_num
  · norm_num at h1 h2 ⊢
    exact ⟨h2, h1⟩

theorem forall_loopSetGo (P : ℝ → Prop) (g : ℕ → ℝ → ℝ) (n : ℕ)
    (hg : ∀ i x, P x → P (g i x)) :
    ∀ (l : List ℝ) (i : ℕ), List.Forall P l → List.Forall P (loopSetGo g n i l) := by
  intro l
  induction l with
  | nil => intro i _; simp [loopSetGo]
  | cons x xs ih =>
    intro i h
    rw [List.forall_cons] at h
    rw [loopSetGo_cons, List.forall_cons]
    refine ⟨?_, ih (i + 1) h.2⟩
    split_ifs with hcase
    · exact hg i x h.1
    · exact h.1

theorem forall_loopSet (P : ℝ → Prop) (g : ℕ → ℝ → ℝ) (n : ℕ) (l : List ℝ)
    (hg : ∀ i x, P x → P (g i x)) (h : List.Forall P l) :
    List.Forall P (loopSet g n l) :=
  forall_loopSetGo P g n hg l 0 h

theorem process_values_clamped (g : GainController) (x : List ℝ) (p : Params)
    (h : List.Forall (fun v => (1e-6 : ℝ) ≤ v ∧ v ≤ 1e6) g.values) :
    List.Forall (fun v => (1e-6 : ℝ) ≤ v ∧ v ≤ 1e6)
      ((GainController.process g x p).1).values := by
  unfold GainController.process
  exact forall_loopSet _ _ _ _ (fun i v _ => gainClamp_mem _) h

theorem forall_replicate_one :
    ∀ size : ℕ, List.Forall (fun v => (1e-6 : ℝ) ≤ v ∧ v ≤ 1e6)
      (List.replicate size (1 : ℝ)) := by
  intro size
  induction size with
  | zero => simp
  | succ n ih => rw [List.replicate_succ, List.forall_cons]; exact ⟨by norm_num, ih⟩

/-- C3.  For every parameter record and every sequence of `process` calls
with arbitrary input vectors, every per-band gain value of a `GainController`
lies in `[1e-6, 1e6]` after every call: the gains start at 1 and every
update `value + u` passes through the fixed clamp, whatever the inputs or
the iteration count.  (Quantifying over all input sequences covers the state
after each individual call.) -/
theorem gainController_values_bounded (size : ℕ) (p : Params)
    (inputs : List (List ℝ)) :
    (GainController.new size).values = List.replicate size 1 ∧
      List.Forall (fun v => (1e-6 : ℝ) ≤ v ∧ v ≤ 1e6)
        (runGC size p inputs).values := by
  refine ⟨rfl, ?_⟩
  unfold runGC
  have : ∀ (l : List (List ℝ)) (g : GainController),
      List.Forall (fun v => (1e-6 : ℝ) ≤ v ∧ v ≤ 1e6) g.values →
      List.Forall (fun v => (1e-6 : ℝ) ≤ v ∧ v ≤ 1e6)
        (l.foldl (fun g x => (GainController.process g x p).1) g).values := by
    intro l
    induction l with
    | nil => intro g h; exact h
    | cons x xs ih =>
      intro g h
      exact ih _ (process_values_clamped g x p h)
  exact this inputs _ (forall_replicate_one size)

end GainControl

/-! ## FrequencySensor / Features (`src/frequency_sensor.rs`, `f32`,
with its parameter records from `src/params.rs`) -/

namespace FreqSensor

/-- `GainControllerParams` (params.rs). -/
structure GCParams where
  filter_params : FilterParams
  kp : ℝ
  kd : ℝ
  ki : ℝ
  pre_gain : ℝ

/-- `FrequencySensorParams` (params.rs:76-92). -/
structure FSParams where
  preemphasis : ℝ
  diff_gain : ℝ
  amp_scale : ℝ
  amp_offset : ℝ
  sync : ℝ
  drag : ℝ
  amp_filter : FilterParams
  amp_feedback : FilterParams
  diff_filter : FilterParams
  diff_feedback : FilterParams
  pos_scale_filter : FilterParams
  neg_scale_filter : FilterParams
  gain_control : GCParams

/-- The filter bank of frequency_sensor.rs:76-113 (parameters stored in the
filter). -/
structure Filter where
  values : List ℝ
  params : FilterParams

def Filter.new (size : ℕ) (p : FilterParams) : Filter :=
  ⟨List.replicate size 0, p⟩

/-- `Filter::process` (frequency_sensor.rs:108-112). -/
def Filter.process (f : Filter) (input : List ℝ) : Filter :=
  { f with values :=
      (loopSet (fun i v => f.params.a * input.getD i 0 + f.params.b * v)
        input.length f.values) }

/-- `BiasedFilter` (frequency_sensor.rs:117-142): `pos_params` is selected
when the input is below the current value. -/
structure BiasedFilter where
  values : List ℝ
  posParams : FilterParams
  negParams : FilterParams

def BiasedFilter.new (size : ℕ) (pos neg : FilterParams) : BiasedFilter :=
  ⟨List.replicate size 0, pos, neg⟩

/-- `BiasedFilter::process` (frequency_sensor.rs:132-141). -/
noncomputable def BiasedFilter.process (f : BiasedFilter) (input : List ℝ) :
    BiasedFilter :=
  { f with values :=
      (loopSet (fun i v =>
          if input.getD i 0 < v then
            f.posParams.a * input.getD i 0 + f.posParams.b * v
          else
            f.negParams.a * input.getD i 0 + f.negParams.b * v)
        input.length f.values) }

/-- The sensor's internal `GainController` (frequency_sensor.rs:145-188):
`log_error`, `kp`/`ki` only, and an upper gain clamp of `1e8`. -/
structure GainController where
  filter : Filter
  values : List ℝ
  err : List ℝ
  params : GCParams

def GainController.new (size : ℕ) (p : GCParams) : GainController :=
  ⟨Filter.new size p.filter_params, List.replicate size 1, List.replicate size 0, p⟩

/-- Rust `f32::signum` on non-NaN values (`+1` for zero and positives). -/
noncomputable def rsign (x : ℝ) : ℝ := if x < 0 then -1 else 1

/-- `GainController::log_error` (frequency_sensor.rs:162-166). -/
noncomputable def logError (x : ℝ) : ℝ :=
  -rsign (0.000000001 + x) * Real.logb 2 |0.000000001 + x| *
    Real.logb 2 |0.000000001 + x| * rsign (Real.logb 2 |0.000000001 + x|)

/-- The gain clamp of frequency_sensor.rs:181-185. -/
noncomputable def fsGainClamp (x : ℝ) : ℝ :=
  if x > 1e8 then 1e8 else if x < 1e-6 then 1e-6 else x

/-- `GainController::process` (frequency_sensor.rs:168-187). -/
noncomputable def GainController.process (g : GainController) (input : List ℝ) :
    GainController × List ℝ :=
  let input1 := loopSet (fun i v => v * (g.values.getD i 0 * g.params.pre_gain))
    input.length input
  let filter1 := g.filter.process input1
  let err1 := loopSet
    (fun i e => 0.99 * e + 0.01 * logError (filter1.values.getD i 0))
    input.length g.err
  let values1 := loopSet
    (fun i v => fsGainClamp (v + (g.params.kp * logError (filter1.values.getD i 0)
      + g.params.ki * err1.getD i 0)))
    input.length g.values
  (⟨filter1, values1, err1, g.params⟩, input1)

/-- `Features` (frequency_sensor.rs:13-35). -/
structure Features where
  amplitudes : List (List ℝ)
  scales : List ℝ
  diff : List ℝ
  energy : List ℝ
  size : ℕ
  length : ℕ
  index : ℕ

def Features.new (size length : ℕ) : Features :=
  ⟨List.replicate length (List.replicate size 0), List.replicate size 0,
    List.replicate size 0, List.replicate size 0, size, length, 0⟩

/-- `Features::increment_index` (frequency_sensor.rs:37-40). -/
def Features.incrementIndex (f : Features) : Features :=
  { f with index := (f.index + 1) % f.length }

/-- The `i32` value computed inside `Features::current_index`
(frequency_sensor.rs:42-48), before the `as usize` cast. -/
def Features.currentIndexZ (f : Features) (i : ℕ) : ℤ :=
  if (f.index : ℤ) - ((i % f.length : ℕ) : ℤ) < 0 then
    (f.index : ℤ) - ((i % f.length : ℕ) : ℤ) + (f.length : ℤ)
  else
    (f.index : ℤ) - ((i % f.length : ℕ) : ℤ)

/-- `Features::current_index`. -/
def Features.currentIndex (f : Features) (i : ℕ) : ℕ :=
  (f.currentIndexZ i).toNat

/-- `Features::get_amplitudes` (frequency_sensor.rs:50-52). -/
def Features.getAmplitudes (f : Features) (i : ℕ) : List ℝ :=
  f.amplitudes.getD (f.currentIndex i) []

/-- `FrequencySensor` (frequency_sensor.rs:191-206). -/
structure FrequencySensor where
  params : FSParams
  features : Features
  gainController : GainController
  ampFilter : Filter
  ampFeedback : Filter
  diffFilter : Filter
  diffFeedback : Filter
  scaleFilter : BiasedFilter
  size : ℕ
  scaleBuffer : List ℝ
  diffBuffer : List ℝ

/-- `FrequencySensor::new` (frequency_sensor.rs:209-223). -/
def FrequencySensor.new (size length : ℕ) (p : FSParams) : FrequencySensor :=
  ⟨p, Features.new size length, GainController.new size p.gain_control,
    Filter.new size p.amp_filter, Filter.new size p.amp_feedback,
    Filter.new size p.diff_filter, Filter.new size p.diff_feedback,
    BiasedFilter.new size p.pos_scale_filter p.neg_scale_filter,
    size, List.replicate size 0, List.replicate size 0⟩

/-- `apply_preemphasis` (frequency_sensor.rs:277-282): mutates the input
only. -/
noncomputable def applyPreemphasis (s : FrequencySensor) (input : List ℝ) :
    List ℝ :=
  loopSet (fun i v => v * (1 + (i : ℝ) * ((s.params.preemphasis - 1) / (s.size : ℝ))))
    s.size input

/-- `apply_gain_control` (frequency_sensor.rs:284-286). -/
noncomputable def applyGainControl (s : FrequencySensor) (input : List ℝ) :
    FrequencySensor × List ℝ :=
  ({ s with gainController := (s.gainController.process input).1 },
    (s.gainController.process input).2)

/-- `apply_filters` (frequency_sensor.rs:288-300): snapshot the input into
`diff_buffer`, run the two amplitude filters, form filtered-minus-raw, run
the two diff filters. -/
noncomputable def applyFilters (s : FrequencySensor) (input : List ℝ) :
    FrequencySensor :=
  { s with
    ampFilter := s.ampFilter.process input,
    ampFeedback := s.ampFeedback.process input,
    diffFilter := (s.diffFilter.process
      (loopSet (fun i v => (s.ampFilter.process input).values.getD i 0 - v)
        s.size input)),
    diffFeedback := (s.diffFeedback.process
      (loopSet (fun i v => (s.ampFilter.process input).values.getD i 0 - v)
        s.size input)),
    diffBuffer :=
      (loopSet (fun i v => (s.ampFilter.process input).values.getD i 0 - v)
        s.size input) }

/-- `apply_effects` (frequency_sensor.rs:302-319): advance the ring index,
write the new amplitude vector, the diff vector, and the leaky energy
accumulation. -/
noncomputable def applyEffects (s : FrequencySensor) : FrequencySensor :=
  { s with features :=
      { s.features.incrementIndex with
        amplitudes := (s.features.incrementIndex.amplitudes.set
          (s.features.incrementIndex.currentIndex 0)
          (loopSet (fun i _v => s.params.amp_offset + s.params.amp_scale *
              (s.ampFilter.values.getD i 0 + s.ampFeedback.values.getD i 0))
            s.size (s.features.incrementIndex.getAmplitudes 0))),
        diff := (loopSet (fun i _v => s.params.diff_gain *
            (s.diffFilter.values.getD i 0 + s.diffFeedback.values.getD i 0))
          s.size s.features.diff),
        energy := (loopSet (fun i e => e + s.params.diff_gain *
              (s.diffFilter.values.getD i 0 + s.diffFeedback.values.getD i 0)
            - s.params.drag)
          s.size s.features.energy) } }

/-- `signed_square_diff` (frequency_sensor.rs:383-386). -/
noncomputable def signedSquareDiff (a b : ℝ) : ℝ :=
  rsign (a - b) * (a - b) * (a - b)

/-- One iteration of the synchronization loop (frequency_sensor.rs:330-340):
three sequential `+=` on `energy[i]`, each reading the current state. -/
noncomputable def syncBody (sync : ℝ) (size : ℕ) (mean : ℝ) (e : List ℝ)
    (i : ℕ) : List ℝ :=
  let e1 := if 0 < i then
      e.set i (e.getD i 0 + sync * signedSquareDiff (e.getD (i - 1) 0) (e.getD i 0))
    else e
  let e2 := if i < size - 1 then
      e1.set i (e1.getD i 0 + sync * signedSquareDiff (e1.getD (i + 1) 0) (e1.getD i 0))
    else e1
  e2.set i (e2.getD i 0 + sync / (size : ℝ) * signedSquareDiff mean (e2.getD i 0))

/-- The coupled energy vector: the synchronization loop of
frequency_sensor.rs:330-340 run over all bands, with the pre-loop mean. -/
noncomputable def syncedEnergy (s : FrequencySensor) : List ℝ :=
  (List.range s.size).foldl
    (syncBody s.params.sync s.size (s.features.energy.sum / (s.size : ℝ)))
    s.features.energy

open Classical in
/-- The ±2π wraparound of frequency_sensor.rs:342-360 on the coupled energy:
the two sequential `if` blocks have mutually exclusive conditions and the
early `return` skips the rest, so they form an if/else-if chain; `any`
becomes an existential over the vector. -/
noncomputable def wrapEnergy (size : ℕ) (e : List ℝ) : List ℝ :=
  if e.sum / (size : ℝ) < -(2 * Real.pi) then
    if ∃ x ∈ e, x > -(2 * Real.pi) then e else e.map (fun x => 2 * Real.pi + x)
  else if e.sum / (size : ℝ) > 2 * Real.pi then
    if ∃ x ∈ e, x < 2 * Real.pi then e else e.map (fun x => x - 2 * Real.pi)
  else e

/-- `apply_sync` (frequency_sensor.rs:321-361). -/
noncomputable def applySync (s : FrequencySensor) : FrequencySensor :=
  { s with features := { s.features with energy := wrapEnergy s.size (syncedEnergy s) } }

/-- The scratch buffer written by the first loop of `apply_value_scaling`
(frequency_sensor.rs:364-368). -/
noncomputable def scaleBufferNew (s : FrequencySensor) : List ℝ :=
  loopSet
    (fun i _v => |s.features.scales.getD i 0 *
        ((s.features.getAmplitudes 0).getD i 0 - 1)|)
    s.size s.scaleBuffer

/-- `apply_value_scaling` (frequency_sensor.rs:363-381): filter the scratch
buffer through the biased scale filter, floor each filtered value at 0.001,
write the floor back into the filter state and its reciprocal into
`scales`. -/
noncomputable def applyValueScaling (s : FrequencySensor) : FrequencySensor :=
  { s with
    scaleBuffer := scaleBufferNew s,
    scaleFilter :=
      { s.scaleFilter.process (scaleBufferNew s) with
        values := (loopSet (fun _i v => if v < 0.001 then 0.001 else v) s.size
          (s.scaleFilter.process (scaleBufferNew s)).values) },
    features :=
      { s.features with scales := (loopSet
          (fun i _v => 1 /
            (if (s.scaleFilter.process (scaleBufferNew s)).values.getD i 0 < 0.001
              then 0.001
              else (s.scaleFilter.process (scaleBufferNew s)).values.getD i 0))
          s.size s.features.scales) } }

/-- `FrequencySensor::process` (frequency_sensor.rs:236-243). -/
noncomputable def FrequencySensor.process (s : FrequencySensor)
    (input : List ℝ) : FrequencySensor :=
  applyValueScaling (applySync (applyEffects
    (applyFilters (applyGainControl s (applyPreemphasis s input)).1
      (applyGainControl s (applyPreemphasis s input)).2)))

/-- All-zero parameter records, used to instantiate witnesses. -/
def zeroFP : FilterParams := ⟨0, 0⟩

def zeroGC : GCParams := ⟨zeroFP, 0, 0, 0, 0⟩

def zeroFS : FSParams :=
  ⟨0, 0, 0, 0, 0, 0, zeroFP, zeroFP, zeroFP, zeroFP, zeroFP, zeroFP, zeroGC⟩

/-!  Value scaling: bounds on `scales` (C10). -/

theorem forall_loopSetGo_covered (P : ℝ → Prop) (g : ℕ → ℝ → ℝ) (n : ℕ)
    (hg : ∀ i x, P (g i x)) :
    ∀ (l : List ℝ) (i : ℕ), i + l.length ≤ n → List.Forall P (loopSetGo g n i l) := by
  intro l
  induction l with
  | nil => intro i _; simp [loopSetGo]
  | cons x xs ih =>
    intro i h
    rw [loopSetGo_cons, List.forall_cons, if_pos (by simp at h; omega)]
    exact ⟨hg i x, ih (i + 1) (by simp at h ⊢; omega)⟩

theorem forall_loopSet_covered (P : ℝ → Prop) (g : ℕ → ℝ → ℝ) (n : ℕ)
    (l : List ℝ) (hlen : l.length ≤ n) (hg : ∀ i x, P (g i x)) :
    List.Forall P (loopSet g n l) :=
  forall_loopSetGo_covered P g n hg l 0 (by omega)

theorem recip_floor_mem (q : ℝ) :
    0 < 1 / (if q < 0.001 then 0.001 else q) ∧
      1 / (if q < 0.001 then 0.001 else q) ≤ 1000 := by
  have hq : (0.001 : ℝ) ≤ (if q < 0.001 then 0.001 else q) := by
    split_ifs with h
    · norm_num
    · linarith
  constructor
  · positivity
  · rw [div_le_iff₀ (by linarith)]
    linarith

/-- C10.  After every call to `FrequencySensor::process`, every element of
`Features::scales` is positive and at most 1000: `apply_value_scaling` floors
the biased-filtered magnitude at 0.001, writes the floor back into the filter
state, and stores its reciprocal in `scales[i]` — even though `scales` starts
as all zeros in `Features::new`.  The only shape assumption is the one the
constructor establishes: the `scales` vector is no longer than `size`. -/
theorem freqSensor_scales_bounded (s : FrequencySensor) (x : List ℝ)
    (size length : ℕ) (h : s.features.scales.length ≤ s.size) :
    (Features.new size length).scales = List.replicate size 0 ∧
      List.Forall (fun v => 0 < v ∧ v ≤ 1000)
        (FrequencySensor.process s x).features.scales := by
  refine ⟨rfl, ?_⟩
  exact forall_loopSet_covered _ _ _ _ h (fun i v => recip_floor_mem _)

/-- Witness for C10 at a freshly constructed one-band sensor. -/
theorem freqSensor_scales_bounded_witness :
    (FrequencySensor.new 1 1 zeroFS).features.scales.length ≤
        (FrequencySensor.new 1 1 zeroFS).size ∧
      ((Features.new 1 1).scales = List.replicate 1 0 ∧
        List.Forall (fun v => 0 < v ∧ v ≤ 1000)
          (FrequencySensor.process (FrequencySensor.new 1 1 zeroFS) [0]).features.scales) :=
  ⟨by simp [FrequencySensor.new, Features.new],
    freqSensor_scales_bounded (FrequencySensor.new 1 1 zeroFS) [0] 1 1
      (by simp [FrequencySensor.new, Features.new])⟩

/-!  The Features ring buffer (C4). -/

theorem currentIndex_zero (f : Features) : f.currentIndex 0 = f.index := by
  unfold Features.currentIndex Features.currentIndexZ
  rw [Nat.zero_mod]
  rw [if_neg (by omega)]
  omega

theorem currentIndex_eq (f : Features) (hidx : f.index < f.length) (i : ℕ) :
    f.currentIndex i = (f.index + f.length - i % f.length) % f.length := by
  have hL : 0 < f.length := by omega
  have hi' : i % f.length < f.length := Nat.mod_lt _ hL
  unfold Features.currentIndex Features.currentIndexZ
  by_cases hc : (f.index : ℤ) - ((i % f.length : ℕ) : ℤ) < 0
  · rw [if_pos hc]
    have h2 : f.index + f.length - i % f.length < f.length := by omega
    rw [Nat.mod_eq_of_lt h2]
    omega
  · rw [if_neg hc]
    have h2 : f.index + f.length - i % f.length
        = (f.index - i % f.length) + f.length := by omega
    rw [h2, Nat.add_mod_right,
      Nat.mod_eq_of_lt (show f.index - i % f.length < f.length from by omega)]
    omega

theorem currentIndexZ_bounds (f : Features) (hidx : f.index < f.length)
    (i : ℕ) : 0 ≤ f.currentIndexZ i ∧ f.currentIndexZ i < (f.length : ℤ) := by
  have hL : 0 < f.length := by omega
  have hi' : i % f.length < f.length := Nat.mod_lt _ hL
  unfold Features.currentIndexZ
  by_cases hc : (f.index : ℤ) - ((i % f.length : ℕ) : ℤ) < 0
  · rw [if_pos hc]
    omega
  · rw [if_neg hc]
    omega

theorem currentIndex_zero_ne (f : Features) (hidx : f.index < f.length)
    (i : ℕ) (h1 : 1 ≤ i) (h2 : i < f.length) :
    f.currentIndex 0 ≠ f.currentIndex i := by
  rw [currentIndex_zero, currentIndex_eq f hidx i, Nat.mod_eq_of_lt h2]
  intro he
  by_cases hcase : i ≤ f.index
  · rw [show f.index + f.length - i = (f.index - i) + f.length from by omega,
      Nat.add_mod_right, Nat.mod_eq_of_lt (by omega)] at he
    omega
  · rw [Nat.mod_eq_of_lt (by omega)] at he
    omega

theorem currentIndex_shift (f : Features) (hidx : f.index < f.length) (i : ℕ)
    (h1 : 1 ≤ i) (h2 : i < f.length) :
    f.incrementIndex.currentIndex i = f.currentIndex (i - 1) := by
  have hL : 0 < f.length := by omega
  have hinc : f.incrementIndex.index = (f.index + 1) % f.length := rfl
  have hlen : f.incrementIndex.length = f.length := rfl
  rw [currentIndex_eq f.incrementIndex (by rw [hinc, hlen]; exact Nat.mod_lt _ hL) i,
    currentIndex_eq f hidx (i - 1), hinc, hlen,
    Nat.mod_eq_of_lt h2, Nat.mod_eq_of_lt (by omega : i - 1 < f.length)]
  by_cases hc : f.index + 1 < f.length
  · rw [Nat.mod_eq_of_lt hc]
    congr 1
    omega
  · rw [show f.index + 1 = f.length from by omega, Nat.mod_self]
    rw [show f.index + f.length - (i - 1) = (f.length - i) + f.length from by omega,
      Nat.add_mod_right]
    congr 1
    omega

theorem process_index (s : FrequencySensor) (x : List ℝ) :
    (s.process x).features.index = (s.features.index + 1) % s.features.length :=
  rfl

theorem process_flength (s : FrequencySensor) (x : List ℝ) :
    (s.process x).features.length = s.features.length :=
  rfl

theorem process_amplitudes (s : FrequencySensor) (x : List ℝ) :
    ∃ w, (s.process x).features.amplitudes
      = s.features.amplitudes.set (s.features.incrementIndex.currentIndex 0) w :=
  ⟨_, rfl⟩

theorem process_getAmplitudes_shift (s : FrequencySensor) (x : List ℝ) (i : ℕ)
    (hidx : s.features.index < s.features.length)
    (h1 : 1 ≤ i) (h2 : i < s.features.length) :
    (s.process x).features.getAmplitudes i = s.features.getAmplitudes (i - 1) := by
  have hL : 0 < s.features.length := by omega
  obtain ⟨w, hw⟩ := process_amplitudes s x
  have hidx' : s.features.incrementIndex.index < s.features.incrementIndex.length := by
    show (s.features.index + 1) % s.features.length < s.features.length
    exact Nat.mod_lt _ hL
  have hcong : (s.process x).features.currentIndex i
      = s.features.incrementIndex.currentIndex i := rfl
  have hne : s.features.incrementIndex.currentIndex 0
      ≠ s.features.currentIndex (i - 1) := by
    rw [← currentIndex_shift s.features hidx i h1 h2]
    exact currentIndex_zero_ne s.features.incrementIndex hidx' i h1 h2
  unfold Features.getAmplitudes
  rw [hw, hcong, currentIndex_shift s.features hidx i h1 h2]
  exact getD_set_ne _ _ _ _ _ hne

/-- The sensor state after feeding `xs` (oldest first) from a fresh sensor. -/
noncomputable def runSensor (size length : ℕ) (p : FSParams)
    (xs : List (List ℝ)) : FrequencySensor :=
  xs.foldl FrequencySensor.process (FrequencySensor.new size length p)

theorem runSensor_flength (size length : ℕ) (p : FSParams) :
    ∀ xs : List (List ℝ), (runSensor size length p xs).features.length = length := by
  intro xs
  induction xs using List.list_reverse_induction with
  | base => rfl
  | ind ps x ih =>
    have hrun : runSensor size length p (ps ++ [x])
        = (runSensor size length p ps).process x := by
      unfold runSensor
      rw [List.foldl_append]
      rfl
    rw [hrun, process_flength]
    exact ih

theorem runSensor_valid (size length : ℕ) (p : FSParams) (hL : 1 ≤ length) :
    ∀ xs : List (List ℝ),
      (runSensor size length p xs).features.index
        < (runSensor size length p xs).features.length := by
  intro xs
  induction xs using List.list_reverse_induction with
  | base =>
    show (0 : ℕ) < length
    omega
  | ind ps x ih =>
    have hrun : runSensor size length p (ps ++ [x])
        = (runSensor size length p ps).process x := by
      unfold runSensor
      rw [List.foldl_append]
      rfl
    rw [hrun, process_index, process_flength]
    exact Nat.mod_lt _ (by omega)

theorem runSensor_take_shift (size length : ℕ) (p : FSParams) (hL : 1 ≤ length) :
    ∀ (xs : List (List ℝ)) (i : ℕ), i < length → i < xs.length →
      (runSensor size length p xs).features.getAmplitudes i
        = (runSensor size length p (xs.take (xs.length - i))).features.getAmplitudes 0 := by
  intro xs
  induction xs using List.list_reverse_induction with
  | base => intro i _ hi; simp at hi
  | ind ps x ih =>
    intro i hiL hin
    cases i with
    | zero =>
      rw [show (ps ++ [x]).length - 0 = (ps ++ [x]).length from by omega,
        List.take_length]
    | succ j =>
      have hrun : runSensor size length p (ps ++ [x])
          = (runSensor size length p ps).process x := by
        unfold runSensor
        rw [List.foldl_append]
        rfl
      have hval := runSensor_valid size length p hL ps
      have hflen := runSensor_flength size length p ps
      have hjL : j + 1 < (runSensor size length p ps).features.length := by
        rw [hflen]
        exact hiL
      have hjps : j < ps.length := by
        have h' : j + 1 < (ps ++ [x]).length := hin
        rw [List.length_append] at h'
        simp at h'
        omega
      have htake : (ps ++ [x]).take ((ps ++ [x]).length - (j + 1))
          = ps.take (ps.length - j) := by
        have hlen1 : (ps ++ [x]).length = ps.length + 1 := by simp
        rw [hlen1, show ps.length + 1 - (j + 1) = ps.length - j from by omega,
          List.take_append_eq_append_take,
          show ps.length - j - ps.length = 0 from by omega, List.take_zero,
          List.append_nil]
      rw [hrun, process_getAmplitudes_shift _ x (j + 1) hval (by omega) hjL,
        Nat.add_sub_cancel, ih j (by omega) hjps, htake]

/-- C4.  For every `Features` ring buffer with `length ≥ 1`, after
`n ≥ length` sensor update calls, `get_amplitudes(i)` for `i < length`
returns the amplitude vector written on call `n - i` (the most recent vector
of the run truncated `i` calls early); the read slot is
`(write_index - i) mod length`, where the `i32` value computed inside
`current_index` never goes negative before its `usize` cast.  In particular
`get_amplitudes(0)` is the vector written by the most recent call. -/
theorem features_ring_buffer (size length : ℕ) (p : FSParams)
    (xs : List (List ℝ)) (i : ℕ) (hL : 1 ≤ length) (hn : length ≤ xs.length)
    (hi : i < length) :
    (runSensor size length p xs).features.getAmplitudes i
        = (runSensor size length p (xs.take (xs.length - i))).features.getAmplitudes 0 ∧
      0 ≤ (runSensor size length p xs).features.currentIndexZ i ∧
      (runSensor size length p xs).features.currentIndexZ i
        < ((runSensor size length p xs).features.length : ℤ) ∧
      (runSensor size length p xs).features.currentIndex i
        = ((runSensor size length p xs).features.index
              + (runSensor size length p xs).features.length
              - i % (runSensor size length p xs).features.length)
            % (runSensor size length p xs).features.length := by
  have hval := runSensor_valid size length p hL xs
  refine ⟨runSensor_take_shift size length p hL xs i hi (by omega), ?_, ?_, ?_⟩
  · exact (currentIndexZ_bounds _ hval i).1
  · exact (currentIndexZ_bounds _ hval i).2
  · exact currentIndex_eq _ hval i

/-- Witness for C4 at a one-band, one-frame ring after a single call. -/
theorem features_ring_buffer_witness :
    1 ≤ 1 ∧ 1 ≤ ([[(0 : ℝ)]] : List (List ℝ)).length ∧ 0 < 1 ∧
      ((runSensor 1 1 zeroFS [[(0 : ℝ)]]).features.getAmplitudes 0
          = (runSensor 1 1 zeroFS
              ([[(0 : ℝ)]].take ([[(0 : ℝ)]].length - 0))).features.getAmplitudes 0 ∧
        0 ≤ (runSensor 1 1 zeroFS [[(0 : ℝ)]]).features.currentIndexZ 0 ∧
        (runSensor 1 1 zeroFS [[(0 : ℝ)]]).features.currentIndexZ 0
          < ((runSensor 1 1 zeroFS [[(0 : ℝ)]]).features.length : ℤ) ∧
        (runSensor 1 1 zeroFS [[(0 : ℝ)]]).features.currentIndex 0
          = ((runSensor 1 1 zeroFS [[(0 : ℝ)]]).features.index
                + (runSensor 1 1 zeroFS [[(0 : ℝ)]]).features.length
                - 0 % (runSensor 1 1 zeroFS [[(0 : ℝ)]]).features.length)
              % (runSensor 1 1 zeroFS [[(0 : ℝ)]]).features.length) :=
  ⟨le_refl 1, by simp, Nat.zero_lt_one,
    features_ring_buffer 1 1 zeroFS [[(0 : ℝ)]] 0 (le_refl 1) (by simp)
      Nat.zero_lt_one⟩

/-!  Synchronization (C5): the spec-side description and its relation to
`apply_sync`. -/

/-- From the claim's words: `ssd(a,b) = sign(a−b)·(a−b)²`. -/
noncomputable def ssdSpec (a b : ℝ) : ℝ := rsign (a - b) * (a - b) ^ 2

theorem signedSquareDiff_eq (a b : ℝ) : signedSquareDiff a b = ssdSpec a b := by
  unfold signedSquareDiff ssdSpec
  ring

/-- From the claim's words: band `i` after the left-neighbor nudge. -/
noncomputable def specT1 (sync : ℝ) (e : List ℝ) (i : ℕ) : ℝ :=
  if 0 < i then e.getD i 0 + sync * ssdSpec (e.getD (i - 1) 0) (e.getD i 0)
  else e.getD i 0

/-- From the claim's words: band `i` after the right-neighbor nudge. -/
noncomputable def specT2 (sync : ℝ) (size : ℕ) (e : List ℝ) (i : ℕ) : ℝ :=
  if i < size - 1 then
    specT1 sync e i + sync * ssdSpec (e.getD (i + 1) 0) (specT1 sync e i)
  else specT1 sync e i

/-- From the claim's words: band `i` after all three coupling terms. -/
noncomputable def specBandUpdate (sync : ℝ) (size : ℕ) (mean : ℝ) (e : List ℝ)
    (i : ℕ) : ℝ :=
  specT2 sync size e i + sync / (size : ℝ) * ssdSpec mean (specT2 sync size e i)

/-- From the claim's words: the bands updated in increasing order. -/
noncomputable def specSyncGo (sync : ℝ) (size : ℕ) (mean : ℝ) :
    ℕ → ℕ → List ℝ → List ℝ
  | _, 0, e => e
  | i, fuel + 1, e =>
    specSyncGo sync size mean (i + 1) fuel
      (e.set i (specBandUpdate sync size mean e i))

open Classical in
/-- From the spec's wraparound description (§9): shift the whole vector by
±2π when the post-coupling mean has crossed that bound and every element has
individually crossed it. -/
noncomputable def specWrap (size : ℕ) (e : List ℝ) : List ℝ :=
  if e.sum / (size : ℝ) < -(2 * Real.pi) ∧ ∀ x ∈ e, x ≤ -(2 * Real.pi) then
    e.map (fun x => 2 * Real.pi + x)
  else if 2 * Real.pi < e.sum / (size : ℝ) ∧ ∀ x ∈ e, 2 * Real.pi ≤ x then
    e.map (fun x => x - 2 * Real.pi)
  else e

theorem getD_set_set {α : Type} (l : List α) (i : ℕ) (a b d : α)
    (h : i < l.length) : ((l.set i a).set i b).getD i d = b := by
  rw [List.set_set]
  exact getD_set_self _ _ _ _ h

theorem syncBody_eq (sync : ℝ) (size : ℕ) (mean : ℝ) (e : List ℝ) (i : ℕ)
    (hi : i < e.length) :
    syncBody sync size mean e i = e.set i (specBandUpdate sync size mean e i) := by
  unfold syncBody specBandUpdate specT2 specT1
  by_cases h0 : 0 < i <;> by_cases h1 : i < size - 1 <;>
    simp only [h0, h1, if_true, if_false]
  · rw [getD_set_self e i _ 0 hi, getD_set_ne e i (i + 1) _ 0 (by omega),
      getD_set_set e i _ _ 0 hi, List.set_set, List.set_set,
      signedSquareDiff_eq, signedSquareDiff_eq, signedSquareDiff_eq]
  · rw [getD_set_self e i _ 0 hi, List.set_set, signedSquareDiff_eq,
      signedSquareDiff_eq]
  · rw [getD_set_self e i _ 0 hi, List.set_set, signedSquareDiff_eq,
      signedSquareDiff_eq]
  · rw [signedSquareDiff_eq]

theorem foldl_syncBody_eq_go (sync : ℝ) (size : ℕ) (mean : ℝ) :
    ∀ (k i : ℕ) (e : List ℝ), i + k ≤ size → e.length = size →
      (List.range' i k).foldl (syncBody sync size mean) e
        = specSyncGo sync size mean i k e := by
  intro k
  induction k with
  | zero => intro i e _ _; rfl
  | succ k ih =>
    intro i e hik hlen
    rw [List.range'_succ, List.foldl_cons, specSyncGo,
      syncBody_eq sync size mean e i (by omega)]
    exact ih (i + 1) _ (by omega) (by rw [List.length_set]; exact hlen)

theorem syncedEnergy_eq_spec (s : FrequencySensor)
    (hlen : s.features.energy.length = s.size) :
    syncedEnergy s
      = specSyncGo s.params.sync s.size (s.features.energy.sum / (s.size : ℝ))
          0 s.size s.features.energy := by
  unfold syncedEnergy
  rw [List.range_eq_range']
  exact foldl_syncBody_eq_go _ _ _ s.size 0 _ (by omega) hlen

theorem wrapEnergy_eq_spec (size : ℕ) (e : List ℝ) :
    wrapEnergy size e = specWrap size e := by
  have hpi := Real.pi_pos
  unfold wrapEnergy specWrap
  by_cases hm : e.sum / (size : ℝ) < -(2 * Real.pi)
  · rw [if_pos hm]
    by_cases hex : ∃ x ∈ e, x > -(2 * Real.pi)
    · rw [if_pos hex,
        if_neg (show ¬(e.sum / (size : ℝ) < -(2 * Real.pi) ∧
            ∀ x ∈ e, x ≤ -(2 * Real.pi)) from by
          rintro ⟨-, hall⟩
          obtain ⟨x, hx, hgt⟩ := hex
          exact absurd (hall x hx) (not_le.mpr hgt)),
        if_neg (show ¬(2 * Real.pi < e.sum / (size : ℝ) ∧
            ∀ x ∈ e, 2 * Real.pi ≤ x) from by
          rintro ⟨h2, -⟩
          linarith)]
    · rw [if_neg hex,
        if_pos (show e.sum / (size : ℝ) < -(2 * Real.pi) ∧
            ∀ x ∈ e, x ≤ -(2 * Real.pi) from
          ⟨hm, by push_neg at hex; exact hex⟩)]
  · rw [if_neg hm]
    by_cases hm2 : e.sum / (size : ℝ) > 2 * Real.pi
    · rw [if_pos hm2,
        if_neg (show ¬(e.sum / (size : ℝ) < -(2 * Real.pi) ∧
            ∀ x ∈ e, x ≤ -(2 * Real.pi)) from fun hcon => absurd hcon.1 hm)]
      by_cases hex : ∃ x ∈ e, x < 2 * Real.pi
      · rw [if_pos hex,
          if_neg (show ¬(2 * Real.pi < e.sum / (size : ℝ) ∧
              ∀ x ∈ e, 2 * Real.pi ≤ x) from by
            rintro ⟨-, hall⟩
            obtain ⟨x, hx, hlt⟩ := hex
            exact absurd (hall x hx) (not_le.mpr hlt))]
      · rw [if_neg hex,
          if_pos (show 2 * Real.pi < e.sum / (size : ℝ) ∧
              ∀ x ∈ e, 2 * Real.pi ≤ x from
            ⟨hm2, by push_neg at hex; exact hex⟩)]
    · rw [if_neg hm2,
        if_neg (show ¬(e.sum / (size : ℝ) < -(2 * Real.pi) ∧
            ∀ x ∈ e, x ≤ -(2 * Real.pi)) from fun hcon => absurd hcon.1 hm),
        if_neg (show ¬(2 * Real.pi < e.sum / (size : ℝ) ∧
            ∀ x ∈ e, 2 * Real.pi ≤ x) from fun hcon => absurd hcon.1 hm2)]

/-- C5 (amended).  The synchronization step updates each band's energy, in
increasing band order, by exactly the three signed-square-difference coupling
terms of the spec — and then additionally applies the ±2π wraparound of the
whole energy vector once the post-coupling mean crosses ±2π and every element
has crossed it; no other feature field is touched. -/
theorem applySync_coupling_then_wrap (s : FrequencySensor)
    (h : s.features.energy.length = s.size) :
    (applySync s).features.energy
        = specWrap s.size (specSyncGo s.params.sync s.size
            (s.features.energy.sum / (s.size : ℝ)) 0 s.size s.features.energy) ∧
      (applySync s).features.amplitudes = s.features.amplitudes ∧
      (applySync s).features.diff = s.features.diff ∧
      (applySync s).features.scales = s.features.scales ∧
      (applySync s).features.index = s.features.index := by
  refine ⟨?_, rfl, rfl, rfl, rfl⟩
  show wrapEnergy s.size (syncedEnergy s) = _
  rw [syncedEnergy_eq_spec s h, wrapEnergy_eq_spec]

/-- Witness for C5 (amended) at a freshly constructed one-band sensor. -/
theorem applySync_coupling_then_wrap_witness :
    (FrequencySensor.new 1 1 zeroFS).features.energy.length
        = (FrequencySensor.new 1 1 zeroFS).size ∧
      ((applySync (FrequencySensor.new 1 1 zeroFS)).features.energy
          = specWrap (FrequencySensor.new 1 1 zeroFS).size
              (specSyncGo (FrequencySensor.new 1 1 zeroFS).params.sync
                (FrequencySensor.new 1 1 zeroFS).size
                ((FrequencySensor.new 1 1 zeroFS).features.energy.sum /
                  ((FrequencySensor.new 1 1 zeroFS).size : ℝ))
                0 (FrequencySensor.new 1 1 zeroFS).size
                (FrequencySensor.new 1 1 zeroFS).features.energy) ∧
        (applySync (FrequencySensor.new 1 1 zeroFS)).features.amplitudes
          = (FrequencySensor.new 1 1 zeroFS).features.amplitudes ∧
        (applySync (FrequencySensor.new 1 1 zeroFS)).features.diff
          = (FrequencySensor.new 1 1 zeroFS).features.diff ∧
        (applySync (FrequencySensor.new 1 1 zeroFS)).features.scales
          = (FrequencySensor.new 1 1 zeroFS).features.scales ∧
        (applySync (FrequencySensor.new 1 1 zeroFS)).features.index
          = (FrequencySensor.new 1 1 zeroFS).features.index) :=
  ⟨by simp [FrequencySensor.new, Features.new],
    applySync_coupling_then_wrap (FrequencySensor.new 1 1 zeroFS)
      (by simp [FrequencySensor.new, Features.new])⟩

/-- A one-band sensor with `sync = 0` whose accumulated energy is `[7]`:
the coupling terms all vanish, yet `apply_sync` still rewrites the energy. -/
noncomputable def wrapDemoState : FrequencySensor :=
  { FrequencySensor.new 1 1 zeroFS with
    features := { Features.new 1 1 with energy := [7] } }

/-- C5 counterexample.  On `wrapDemoState` the three coupling terms are all
zero (`sync = 0`), so the claim predicts an unchanged energy vector `[7]`;
but `apply_sync` (frequency_sensor.rs:342-360) still applies the ±2π
wraparound, producing `[7 - 2π] ≠ [7]`. -/
theorem applySync_not_coupling_only :
    (applySync wrapDemoState).features.energy = [7 - 2 * Real.pi] ∧
      (7 : ℝ) - 2 * Real.pi ≠ 7 := by
  have hpi := Real.pi_pos
  have hpi2 := Real.pi_lt_d2
  constructor
  · show wrapEnergy wrapDemoState.size (syncedEnergy wrapDemoState) = _
    have hse : syncedEnergy wrapDemoState = [7] := by
      unfold syncedEnergy
      rw [show wrapDemoState.size = 1 from rfl,
        show List.range 1 = [0] from rfl]
      simp only [List.foldl_cons, List.foldl_nil]
      unfold syncBody
      norm_num [wrapDemoState, FrequencySensor.new, Features.new, zeroFS,
        zeroGC, zeroFP, signedSquareDiff]
    rw [hse]
    show wrapEnergy 1 [7] = _
    unfold wrapEnergy
    rw [if_neg (by
        norm_num
        linarith),
      if_pos (by
        norm_num
        linarith),
      if_neg (by
        rintro ⟨x, hx, hlt⟩
        rw [List.mem_singleton] at hx
        subst hx
        linarith)]
    norm_num
  · intro hcon
    have : (2 : ℝ) * Real.pi = 0 := by linarith
    linarith


end FreqSensor

/-!  ## SlidingFFT (`sfft.rs`) and Analyzer (`analyzer.rs`)

The FFT backend (`rustfft`'s planned `Arc<dyn FFT<f64>>`) is an external
library call; it is modelled as an abstract function `List ℂ → List ℂ`
stored in the structure, exactly as the Rust struct stores its planned
transform.  Everything around it is translated from the source. -/

/-- `blackman_harris` (sfft.rs:26-33). -/
noncomputable def blackman_harris (i n : ℕ) : ℝ :=
  let f := (Real.pi * (i : ℝ)) / ((n : ℝ) - 1)
  0.35875 - 0.48829 * Real.cos f + 0.14128 * Real.cos (2 * f)
    - 0.01168 * Real.cos (3 * f)

/-- `log_magnitude` (sfft.rs:35-37). -/
noncomputable def log_magnitude (x : Complex) : ℝ :=
  Real.log (1 + x.re * x.re + x.im * x.im) * 0.5

structure SlidingFFT where
  buffer : WindowBuffer
  window : List ℝ
  fft_size : ℕ
  norm : ℝ
  fft : List Complex → List Complex
  complex : List Complex
  output : List ℝ

/-- `SlidingFFT::new` (sfft.rs:40-61); the planned transform is passed in. -/
noncomputable def SlidingFFT.new (fft_size : ℕ)
    (fft : List Complex → List Complex) : SlidingFFT :=
  { buffer := WindowBuffer.new (fft_size * 2)
    window := (List.range fft_size).map (fun i => blackman_harris i fft_size)
    fft_size := fft_size
    norm := 1 / (fft_size : ℝ)
    fft := fft
    complex := List.replicate fft_size 0
    output := List.replicate (fft_size / 2) 0 }

/-- `SlidingFFT::push_input` (sfft.rs:63-65). -/
def SlidingFFT.push_input (s : SlidingFFT) (frame : List ℝ) : SlidingFFT :=
  { s with buffer := s.buffer.push frame }

/-- `SlidingFFT::process` (sfft.rs:68-85): window the most recent `fft_size`
samples, transform, and write the normalized log magnitudes of the first
`fft_size / 2` bins. -/
noncomputable def SlidingFFT.process (s : SlidingFFT) : SlidingFFT × List ℝ :=
  let fft_frame := s.buffer.get s.fft_size
  let input := fft_frame.zipWith (fun x w => ((x * w : ℝ) : Complex)) s.window
  let cplx := s.fft input
  let out := (List.range (s.fft_size / 2)).map
    (fun i => log_magnitude (cplx.getD i 0 * ((s.norm : ℝ) : Complex)))
  ({ s with complex := cplx, output := out }, out)

structure Analyzer where
  boost : GainControl.BoostController
  boost_params : GainControl.Params
  sfft : SlidingFFT
  bucketer : Bucketer
  frequency_sensor : FreqSensor.FrequencySensor
  block_size : ℕ
  sample_count : ℕ

/-- `Analyzer::new` (analyzer.rs:17-37).  The boost parameters handed to the
constructor are kept in the state and supplied to every
`BoostController::process` call. -/
noncomputable def Analyzer.new (fft_size block_size size length : ℕ)
    (boost_params : GainControl.Params) (fs_params : FreqSensor.FSParams)
    (fft : List Complex → List Complex) : Analyzer :=
  { boost := GainControl.BoostController.new
    boost_params := boost_params
    sfft := SlidingFFT.new fft_size fft
    bucketer := Bucketer.new (fft_size / 2) size 32 22000
    frequency_sensor := FreqSensor.FrequencySensor.new size length fs_params
    block_size := block_size
    sample_count := 0 }

/-- `Analyzer::process` (analyzer.rs:39-51). -/
noncomputable def Analyzer.process (a : Analyzer) (frame : List ℝ) :
    Analyzer × Option FreqSensor.Features :=
  let sample_count := a.sample_count + frame.length
  let bp := GainControl.BoostController.process a.boost frame a.boost_params
  let sfft1 := SlidingFFT.push_input a.sfft bp.2
  if a.block_size ≤ sample_count then
    let pr := SlidingFFT.process sfft1
    let bk := Bucketer.bucket a.bucketer pr.2
    let fs := FreqSensor.FrequencySensor.process a.frequency_sensor bk.2
    ({ a with
        boost := bp.1
        sfft := pr.1
        bucketer := bk.1
        frequency_sensor := fs
        sample_count := 0 }, some fs.features)
  else
    ({ a with boost := bp.1, sfft := sfft1, sample_count := sample_count },
      none)

/-- C6.  `Analyzer::process(frame)` adds `frame.len()` to `sample_count`,
boosts the frame, pushes the boosted frame into the SlidingFFT buffer, and
returns a Features snapshot iff the updated count reaches `block_size`; in
that case the count resets to 0 and the SlidingFFT → Bucketer →
FrequencySensor chain runs exactly once, otherwise it returns `none` and the
spectral chain does not run (bucketer and sensor states are untouched). -/
theorem analyzer_process_block_gate (a : Analyzer) (frame : List ℝ) :
    ((Analyzer.process a frame).2.isSome ↔
      a.block_size ≤ a.sample_count + frame.length) ∧
    (Analyzer.process a frame).1.boost =
      (GainControl.BoostController.process a.boost frame a.boost_params).1 ∧
    (Analyzer.process a frame).1.sfft.buffer =
      WindowBuffer.push a.sfft.buffer
        (GainControl.BoostController.process a.boost frame a.boost_params).2 ∧
    (Analyzer.process a frame).1.block_size = a.block_size ∧
    (if a.block_size ≤ a.sample_count + frame.length then
      (Analyzer.process a frame).1.sample_count = 0 ∧
      (Analyzer.process a frame).1.frequency_sensor =
        FreqSensor.FrequencySensor.process a.frequency_sensor
          (Bucketer.bucket a.bucketer
            (SlidingFFT.process (SlidingFFT.push_input a.sfft
              (GainControl.BoostController.process a.boost frame
                a.boost_params).2)).2).2 ∧
      (Analyzer.process a frame).1.bucketer =
        (Bucketer.bucket a.bucketer
          (SlidingFFT.process (SlidingFFT.push_input a.sfft
            (GainControl.BoostController.process a.boost frame
              a.boost_params).2)).2).1 ∧
      (Analyzer.process a frame).2 =
        some (FreqSensor.FrequencySensor.process a.frequency_sensor
          (Bucketer.bucket a.bucketer
            (SlidingFFT.process (SlidingFFT.push_input a.sfft
              (GainControl.BoostController.process a.boost frame
                a.boost_params).2)).2).2).features
    else
      (Analyzer.process a frame).1.sample_count =
        a.sample_count + frame.length ∧
      (Analyzer.process a frame).1.frequency_sensor = a.frequency_sensor ∧
      (Analyzer.process a frame).1.bucketer = a.bucketer ∧
      (Analyzer.process a frame).2 = none) := by
  simp only [Analyzer.process]
  by_cases h : a.block_size ≤ a.sample_count + frame.length
  · simp only [if_pos h]
    refine ⟨by simp [h], trivial, ?_, trivial, trivial, trivial, trivial,
      trivial⟩
    simp [SlidingFFT.process, SlidingFFT.push_input]
  · simp only [if_neg h]
    exact ⟨by simp [h], trivial, by simp [SlidingFFT.push_input], trivial,
      trivial, trivial, trivial, trivial⟩



end Audio
